import Mathlib

/-!
Verification development for the Renewable Energy Credit Management System
(`src/index.ts`).  The two core routines — `updateCreditOrderFulfillment`
(greedy allocation of producer supply to unfulfilled credit orders) and
`transferCredits` (moving fulfilled credit quantity between clients) — are
shallowly embedded below, together with the record types and storage maps
they operate on.

Modelling conventions:

* JavaScript numbers arising from `parseFloat` are modelled by `JNum :=
  Option ℚ`, where `none` plays the role of `NaN`: arithmetic propagates
  `none` and every comparison involving `none` is `false`, exactly as IEEE
  comparisons involving NaN are. IEEE infinities and rounding of doubles
  are outside the model; all quantities in scope are exact rationals.
* Numeric string fields (`renewable_energy_supply`, `quantity`,
  `bid_price`) are always consumed through `parseFloat` by the code, and a
  JS number round-trips exactly through `toString`/`parseFloat`; the
  fields are therefore represented directly by their parsed `JNum` value,
  `none` standing for any string that parses to NaN.
* `StableBTreeMap` storage is modelled by a list of records in iteration
  (key) order.  `insert` with an existing key replaces the record in
  place; a fresh key is appended (its exact sorted position is irrelevant
  to every claim considered).
* `ic.time()` is a parameter `now`; `uuidv4()` is a parameter `newId`.
-/

/-- JavaScript number produced by `parseFloat`: a rational, or `none` for NaN. -/
abbrev JNum := Option ℚ

/-- JS addition: NaN propagates. -/
def jadd : JNum → JNum → JNum
  | some a, some b => some (a + b)
  | _, _ => none

/-- JS subtraction: NaN propagates. -/
def jsub : JNum → JNum → JNum
  | some a, some b => some (a - b)
  | _, _ => none

/-- JS comparison `a <= b`: any comparison with NaN is false. -/
def jle : JNum → JNum → Bool
  | some a, some b => decide (a ≤ b)
  | _, _ => false

/-- JS comparison `a < b`: any comparison with NaN is false. -/
def jlt : JNum → JNum → Bool
  | some a, some b => decide (a < b)
  | _, _ => false

/-- JS comparison `a >= b`: any comparison with NaN is false. -/
def jge : JNum → JNum → Bool
  | some a, some b => decide (b ≤ a)
  | _, _ => false

/-- JS `isNaN`. -/
def jIsNaN (a : JNum) : Bool := a.isNone

/-- Sum of a list of JS numbers, as produced by
`list.reduce((total, x) => total + x, 0)` in the source. -/
def jsum (l : List JNum) : JNum := l.foldl jadd (some 0)

/-- Numeric value of a list of decimal digit characters (most significant first). -/
def natOfDigits (ds : List Char) : ℕ := ds.foldl (fun a c => a * 10 + (c.toNat - 48)) 0

/-- Parse an unsigned decimal numeral occupying a maximal head of the
character list: digits, optionally followed by a point and further digits
(trailing garbage is ignored, as `parseFloat` ignores it).  Returns `none`
when no digit is found, matching `parseFloat` returning NaN. -/
def parseUnsigned (cs : List Char) : JNum :=
  let ds := cs.takeWhile Char.isDigit
  let rest := cs.drop ds.length
  match rest with
  | '.' :: rest2 =>
      let fs := rest2.takeWhile Char.isDigit
      if ds.isEmpty && fs.isEmpty then none
      else some ((natOfDigits ds : ℚ) + (natOfDigits fs : ℚ) / (10 ^ fs.length : ℚ))
  | _ => if ds.isEmpty then none else some (natOfDigits ds : ℚ)

/-- Model of JavaScript `parseFloat` on the decimal numerals the system
exchanges (optional sign, digits, optional fraction part; `none` = NaN).
Exponent notation, `Infinity` and leading whitespace are outside the model. -/
def parseFloat (s : String) : JNum :=
  match s.data with
  | '-' :: cs => (parseUnsigned cs).map (fun q => -q)
  | '+' :: cs => parseUnsigned cs
  | cs => parseUnsigned cs

/-- Producer record (`renewable_energy_supply` is the parsed value of the
stored text field, `none` for a non-numeric string). -/
structure Producer where
  id : String
  name : String
  renewable_energy_supply : JNum
  created_date : ℕ
  updated_at : Option ℕ
  deriving DecidableEq, Repr

/-- Client record. -/
structure Client where
  id : String
  name : String
  created_date : ℕ
  updated_at : Option ℕ
  deriving DecidableEq, Repr

/-- Contract record (never consumed numerically by the core routines, so
its quantity and price stay as raw text). -/
structure Contract where
  id : String
  producer_id : String
  client_id : String
  quantity : String
  price : String
  created_date : ℕ
  updated_at : Option ℕ
  deriving DecidableEq, Repr

/-- Credit order record (`quantity` and `bid_price` are the parsed values
of the stored text fields, `none` for a non-numeric string). -/
structure CreditOrder where
  id : String
  client_id : String
  quantity : JNum
  bid_price : JNum
  is_fulfilled : Bool
  created_date : ℕ
  updated_at : Option ℕ
  deriving DecidableEq, Repr

/-- Renewable energy source record. -/
structure RenewableEnergySource where
  id : String
  source_name : String
  capacity : String
  created_date : ℕ
  updated_at : Option ℕ
  deriving DecidableEq, Repr

/-- The five stable storage maps of the canister, each as its list of
values in iteration order. -/
structure State where
  producerStorage : List Producer
  clientStorage : List Client
  contractStorage : List Contract
  creditOrderStorage : List CreditOrder
  energySourceStorage : List RenewableEnergySource
  deriving DecidableEq, Repr

/-- `creditOrderStorage.insert(o.id, o)`: replace the record already
stored under that key in place, or append a record with a fresh key. -/
def insertOrder : List CreditOrder → CreditOrder → List CreditOrder
  | [], o => [o]
  | x :: rest, o => if x.id == o.id then o :: rest else x :: insertOrder rest o

/-- Ids of the stored credit orders, in iteration order. -/
def orderIds (st : List CreditOrder) : List String := st.map (fun o => o.id)

/-- `creditOrderStorage.get(i)` as seen through `values()` order. -/
def getOrder (st : List CreditOrder) (i : String) : Option CreditOrder :=
  st.find? (fun o => o.id == i)

/-- The deduction loop of `transferCredits` (source lines 549–564):
`rem` is `remainingTransferQuantity`, the list is the snapshot
`fromClientOrders`, the last argument is `creditOrderStorage`.  An order
whose quantity is at most the remaining amount is flipped to unfulfilled;
otherwise its quantity is reduced by the remaining amount and the loop
breaks. -/
def transferLoop (now : ℕ) : JNum → List CreditOrder → List CreditOrder → List CreditOrder
  | _, [], st => st
  | rem, o :: rest, st =>
    if jle o.quantity rem then
      transferLoop now (jsub rem o.quantity) rest
        (insertOrder st { o with is_fulfilled := false, updated_at := some now })
    else
      insertOrder st { o with quantity := jsub o.quantity rem, updated_at := some now }

/-- `transferCredits(fromClientID, toClientID, quantity)` (source lines
521–579).  `now` models `ic.time()` and `newId` the `uuidv4()` drawn for
the destination order. -/
def transferCredits (now : ℕ) (newId : String) (fromClientID toClientID quantity : String)
    (s : State) : String × State :=
  match s.clientStorage.find? (fun c => c.id == fromClientID),
        s.clientStorage.find? (fun c => c.id == toClientID) with
  | some fromClient, some toClient =>
    if fromClient.id == "" || toClient.id == "" then ("Invalid client IDs", s)
    else
      let transferQuantity := parseFloat quantity
      if jIsNaN transferQuantity || jle transferQuantity (some 0) then
        ("Invalid quantity for credit transfer", s)
      else
        let fromClientOrders := s.creditOrderStorage.filter
          (fun o => o.client_id == fromClientID && o.is_fulfilled)
        let totalFulfilledQuantity := jsum (fromClientOrders.map (fun o => o.quantity))
        if jlt totalFulfilledQuantity transferQuantity then
          ("Insufficient fulfilled credits for transfer", s)
        else
          let st1 := transferLoop now transferQuantity fromClientOrders s.creditOrderStorage
          let newCreditOrder : CreditOrder :=
            { id := newId, client_id := toClientID, quantity := transferQuantity,
              bid_price := some 0, is_fulfilled := true,
              created_date := now, updated_at := some now }
          ("Successfully transferred " ++ quantity ++ " renewable energy credits from "
              ++ fromClient.name ++ " to " ++ toClient.name,
            { s with creditOrderStorage := insertOrder st1 newCreditOrder })
  | _, _ => ("Invalid client IDs", s)

/-- Result of running the inner allocation loop of
`updateCreditOrderFulfillment` for one producer: the updated in-memory
snapshot of unfulfilled orders, the updated store, the final value of the
local `remainingEnergy` counter, the quantities charged against this
producer (one per fulfilled order, attribution for the no-over-allocation
property), and one event `(order id, is_fulfilled before the write)` per
fulfillment write. -/
structure AllocStep where
  snapshot : List CreditOrder
  store : List CreditOrder
  remaining : JNum
  charged : List JNum
  events : List (String × Bool)
  deriving DecidableEq, Repr

/-- Inner loop of `updateCreditOrderFulfillment` (source lines 420–430)
for one producer: `rem` is the local `remainingEnergy` counter, the list
is the shared in-memory snapshot `unfulfilledOrders`, the last argument is
`creditOrderStorage`.  Note the source checks only `remaining >= required`
— it does not re-check `is_fulfilled`. -/
def fulfillOrders (now : ℕ) : JNum → List CreditOrder → List CreditOrder → AllocStep
  | rem, [], st => ⟨[], st, rem, [], []⟩
  | rem, o :: rest, st =>
    if jge rem o.quantity then
      let r := fulfillOrders now (jsub rem o.quantity) rest
        (insertOrder st { o with is_fulfilled := true, updated_at := some now })
      ⟨{ o with is_fulfilled := true, updated_at := some now } :: r.snapshot,
        r.store, r.remaining, o.quantity :: r.charged, (o.id, o.is_fulfilled) :: r.events⟩
    else
      let r := fulfillOrders now rem rest st
      ⟨o :: r.snapshot, r.store, r.remaining, r.charged, r.events⟩

/-- Result of the whole allocation pass: final snapshot, final store, the
charged quantities per producer, and the concatenated fulfillment events. -/
structure PassResult where
  snapshot : List CreditOrder
  store : List CreditOrder
  perProducer : List (Producer × List JNum)
  events : List (String × Bool)
  deriving DecidableEq, Repr

/-- Outer loop of `updateCreditOrderFulfillment` (source lines 417–431):
each producer in turn runs the inner loop over the same shared snapshot
list. -/
def allocAll (now : ℕ) : List Producer → List CreditOrder → List CreditOrder → PassResult
  | [], snap, st => ⟨snap, st, [], []⟩
  | p :: ps, snap, st =>
    let r := fulfillOrders now p.renewable_energy_supply snap st
    let rest := allocAll now ps r.snapshot r.store
    ⟨rest.snapshot, rest.store, (p, r.charged) :: rest.perProducer, r.events ++ rest.events⟩

/-- `updateCreditOrderFulfillment()` (source lines 408–434). -/
def updateCreditOrderFulfillment (now : ℕ) (s : State) : String × State :=
  let producers := s.producerStorage
  let unfulfilledOrders := s.creditOrderStorage.filter (fun o => !o.is_fulfilled)
  if producers.isEmpty || unfulfilledOrders.isEmpty then
    ("No producers or unfulfilled credit orders found", s)
  else
    let r := allocAll now producers unfulfilledOrders s.creditOrderStorage
    ("Credit order fulfillment updated based on renewable energy supply",
      { s with creditOrderStorage := r.store })

/-- Sum of the quantities of the stored orders satisfying `P` (used with
`P` = fulfilled, or fulfilled-and-owned-by-a-given-client). -/
def sumP (P : CreditOrder → Bool) : List CreditOrder → JNum
  | [] => some 0
  | o :: st => if P o then jadd o.quantity (sumP P st) else sumP P st

/-- Total fulfilled quantity held by client `c`. -/
def sumClientFulfilled (c : String) (st : List CreditOrder) : JNum :=
  sumP (fun o => o.client_id == c && o.is_fulfilled) st

/-- Total fulfilled quantity across all clients. -/
def sumAllFulfilled (st : List CreditOrder) : JNum :=
  sumP (fun o => o.is_fulfilled) st

/-! ### Arithmetic lemmas for the JS-number model -/

theorem jadd_none_left (b : JNum) : jadd none b = none := by cases b <;> rfl

theorem jadd_none_right (a : JNum) : jadd a none = none := by cases a <;> rfl

theorem jadd_some_some (a b : ℚ) : jadd (some a) (some b) = some (a + b) := rfl

theorem jadd_zero_left (a : JNum) : jadd (some 0) a = a := by
  cases a <;> simp [jadd]

theorem jadd_zero_right (a : JNum) : jadd a (some 0) = a := by
  cases a <;> simp [jadd]

theorem jadd_comm (a b : JNum) : jadd a b = jadd b a := by
  cases a <;> cases b <;> simp [jadd] <;> ring

theorem jadd_assoc (a b c : JNum) : jadd (jadd a b) c = jadd a (jadd b c) := by
  cases a <;> cases b <;> cases c <;> simp [jadd] <;> ring

theorem jadd_combine (x : JNum) (a b : ℚ) :
    jadd (jadd x (some a)) (some b) = jadd x (some (a + b)) := by
  cases x <;> simp [jadd] <;> ring

theorem jadd_cancel {x y : JNum} (a : ℚ) (h : jadd x (some a) = jadd y (some a)) : x = y := by
  cases x <;> cases y <;> simp_all [jadd]

theorem jadd_eq_some {x y : JNum} {c : ℚ} (h : jadd x y = some c) :
    ∃ a b, x = some a ∧ y = some b ∧ a + b = c := by
  cases x <;> cases y <;> simp_all [jadd]

theorem foldl_jadd (l : List JNum) (a : JNum) : l.foldl jadd a = jadd a (jsum l) := by
  induction l generalizing a with
  | nil => simp [jsum, jadd_zero_right]
  | cons x l ih =>
      show (l.foldl jadd (jadd a x)) = _
      rw [ih (jadd a x)]
      show _ = jadd a (List.foldl jadd (jadd (some 0) x) l)
      rw [ih (jadd (some 0) x), jadd_zero_left, jadd_assoc]

theorem jsum_nil : jsum [] = some 0 := rfl

theorem jsum_cons (x : JNum) (l : List JNum) : jsum (x :: l) = jadd x (jsum l) := by
  show List.foldl jadd (jadd (some 0) x) l = _
  rw [foldl_jadd, jadd_zero_left]

/-! ### Lemmas about sums of stored quantities -/

/-- Contribution of one stored order to `sumP P`. -/
def contrib (P : CreditOrder → Bool) (o : CreditOrder) : JNum :=
  if P o then o.quantity else some 0

theorem sumP_cons (P : CreditOrder → Bool) (o : CreditOrder) (st : List CreditOrder) :
    sumP P (o :: st) = jadd (contrib P o) (sumP P st) := by
  by_cases h : P o <;> simp [sumP, contrib, h, jadd_zero_left]

theorem sumP_append (P : CreditOrder → Bool) (a b : List CreditOrder) :
    sumP P (a ++ b) = jadd (sumP P a) (sumP P b) := by
  induction a with
  | nil => simp [sumP, jadd_zero_left]
  | cons x a ih => simp [sumP_cons, ih, jadd_assoc]

theorem jsum_filter_map (P : CreditOrder → Bool) (st : List CreditOrder) :
    jsum ((st.filter P).map (fun o => o.quantity)) = sumP P st := by
  induction st with
  | nil => rfl
  | cons o st ih =>
      by_cases h : P o <;>
        simp [List.filter_cons, h, jsum_cons, ih, sumP_cons, contrib, jadd_zero_left]

/-! ### Lemmas about the storage model -/

theorem orderIds_cons (o : CreditOrder) (st : List CreditOrder) :
    orderIds (o :: st) = o.id :: orderIds st := rfl

theorem mem_orderIds_of_mem {o : CreditOrder} {st : List CreditOrder} (h : o ∈ st) :
    o.id ∈ orderIds st := List.mem_map_of_mem _ h

theorem find?_cons_pos {p : CreditOrder → Bool} {x : CreditOrder} (l : List CreditOrder)
    (h : p x = true) : List.find? p (x :: l) = some x := by
  simp [List.find?, h]

theorem find?_cons_neg {p : CreditOrder → Bool} {x : CreditOrder} (l : List CreditOrder)
    (h : p x = false) : List.find? p (x :: l) = List.find? p l := by
  simp [List.find?, h]

theorem insertOrder_fresh (st : List CreditOrder) (o : CreditOrder)
    (h : o.id ∉ orderIds st) : insertOrder st o = st ++ [o] := by
  induction st with
  | nil => rfl
  | cons x st ih =>
      rw [orderIds_cons, List.mem_cons] at h
      push_neg at h
      have hne : ¬ x.id = o.id := fun hx => h.1 hx.symm
      simp only [insertOrder, beq_iff_eq, if_neg hne, List.cons_append, List.cons.injEq,
        true_and]
      exact ih h.2

theorem getOrder_insertOrder_self (st : List CreditOrder) (o : CreditOrder) :
    getOrder (insertOrder st o) o.id = some o := by
  induction st with
  | nil => simp [insertOrder, getOrder]
  | cons x st ih =>
      by_cases h : x.id = o.id
      · simp only [insertOrder, beq_iff_eq, if_pos h, getOrder]
        exact find?_cons_pos _ (by simp)
      · simp only [insertOrder, beq_iff_eq, if_neg h, getOrder]
        rw [find?_cons_neg _ (by simp [h])]
        exact ih

theorem getOrder_insertOrder_ne (st : List CreditOrder) (o : CreditOrder) (i : String)
    (h : i ≠ o.id) : getOrder (insertOrder st o) i = getOrder st i := by
  have ho : (o.id == i) = false := by
    simp only [beq_eq_false_iff_ne, ne_eq]
    exact fun hx => h hx.symm
  induction st with
  | nil =>
      simp only [insertOrder, getOrder]
      rw [find?_cons_neg _ ho]
  | cons x st ih =>
      by_cases hx : x.id = o.id
      · simp only [insertOrder, beq_iff_eq, if_pos hx, getOrder]
        rw [find?_cons_neg _ ho, find?_cons_neg _ (by rw [hx]; exact ho)]
      · simp only [insertOrder, beq_iff_eq, if_neg hx, getOrder]
        by_cases hxi : x.id = i
        · rw [find?_cons_pos _ (by simp [hxi]), find?_cons_pos _ (by simp [hxi])]
        · rw [find?_cons_neg _ (by simp [hxi]), find?_cons_neg _ (by simp [hxi])]
          exact ih

theorem mem_insertOrder_of_ne {st : List CreditOrder} {x : CreditOrder} (o : CreditOrder)
    (hx : x ∈ st) (hne : x.id ≠ o.id) : x ∈ insertOrder st o := by
  induction st with
  | nil => cases hx
  | cons y st ih =>
      rcases List.mem_cons.mp hx with rfl | hx2
      · simp only [insertOrder, beq_iff_eq]
        rw [if_neg hne]
        exact List.mem_cons_self _ _
      · by_cases hy : y.id = o.id
        · simp only [insertOrder, beq_iff_eq, if_pos hy]
          exact List.mem_cons_of_mem _ hx2
        · simp only [insertOrder, beq_iff_eq, if_neg hy]
          exact List.mem_cons_of_mem _ (ih hx2)

theorem orderIds_insertOrder_mem (st : List CreditOrder) (o : CreditOrder)
    (h : o.id ∈ orderIds st) : orderIds (insertOrder st o) = orderIds st := by
  induction st with
  | nil => cases h
  | cons x st ih =>
      by_cases hx : x.id = o.id
      · simp [insertOrder, beq_iff_eq, if_pos hx, orderIds_cons, hx]
      · have h2 : o.id ∈ orderIds st := by
          rw [orderIds_cons, List.mem_cons] at h
          rcases h with h1 | h1
          · exact absurd h1.symm hx
          · exact h1
        simp only [insertOrder, beq_iff_eq, if_neg hx, orderIds_cons, ih h2]

theorem mem_id_unique {st : List CreditOrder} (hnd : (orderIds st).Nodup)
    {x y : CreditOrder} (hx : x ∈ st) (hy : y ∈ st) (hid : x.id = y.id) : x = y := by
  induction st with
  | nil => cases hx
  | cons z st ih =>
      rw [orderIds_cons, List.nodup_cons] at hnd
      rcases List.mem_cons.mp hx with rfl | hx2 <;> rcases List.mem_cons.mp hy with rfl | hy2
      · rfl
      · exact absurd (hid ▸ mem_orderIds_of_mem hy2) hnd.1
      · exact absurd (hid ▸ mem_orderIds_of_mem hx2) (hid ▸ hnd.1)
      · exact ih hnd.2 hx2 hy2

theorem getOrder_eq_some_of_mem {st : List CreditOrder} (hnd : (orderIds st).Nodup)
    {o : CreditOrder} (ho : o ∈ st) : getOrder st o.id = some o := by
  induction st with
  | nil => cases ho
  | cons x st ih =>
      rw [orderIds_cons, List.nodup_cons] at hnd
      rcases List.mem_cons.mp ho with rfl | ho2
      · exact find?_cons_pos _ (by simp)
      · have hne : ¬ x.id = o.id := by
          intro h
          exact hnd.1 (h ▸ mem_orderIds_of_mem ho2)
        simp only [getOrder]
        rw [find?_cons_neg _ (by simp [hne])]
        exact ih hnd.2 ho2

theorem jadd_right_swap (a b c : JNum) : jadd (jadd a b) c = jadd (jadd a c) b := by
  rw [jadd_assoc, jadd_comm b c, ← jadd_assoc]

theorem sumP_insertOrder (P : CreditOrder → Bool) {st : List CreditOrder} {o : CreditOrder}
    (hnd : (orderIds st).Nodup) (ho : o ∈ st) (o' : CreditOrder) (hid : o'.id = o.id) :
    jadd (sumP P (insertOrder st o')) (contrib P o) = jadd (sumP P st) (contrib P o') := by
  induction st with
  | nil => cases ho
  | cons x st ih =>
      rw [orderIds_cons, List.nodup_cons] at hnd
      rcases List.mem_cons.mp ho with rfl | ho2
      · have hg : (o.id == o'.id) = true := by simp [hid]
        simp only [insertOrder, hg, if_true, sumP_cons]
        rw [jadd_right_swap (contrib P o') (sumP P st) (contrib P o),
          jadd_right_swap (contrib P o) (sumP P st) (contrib P o'),
          jadd_comm (contrib P o') (contrib P o)]
      · have hxo : x.id ≠ o.id := by
          intro h
          exact hnd.1 (h ▸ mem_orderIds_of_mem ho2)
        have hg : (x.id == o'.id) = false := by simp [hid]; exact hxo
        simp only [insertOrder, hg, Bool.false_eq_true, if_false, sumP_cons]
        rw [jadd_assoc, jadd_assoc, ih hnd.2 ho2]

theorem sumP_insertOrder_out (P : CreditOrder → Bool) {st : List CreditOrder} {o : CreditOrder}
    (hnd : (orderIds st).Nodup) (ho : o ∈ st) (o' : CreditOrder) (hid : o'.id = o.id)
    (hPo : P o = true) (hPo' : P o' = false) :
    jadd (sumP P (insertOrder st o')) o.quantity = sumP P st := by
  have h := sumP_insertOrder P hnd ho o' hid
  simp only [contrib, hPo, hPo', if_true, Bool.false_eq_true, if_false] at h
  rw [h, jadd_zero_right]

theorem sumP_insertOrder_keep (P : CreditOrder → Bool) {st : List CreditOrder} {o : CreditOrder}
    (hnd : (orderIds st).Nodup) (ho : o ∈ st) (o' : CreditOrder) (hid : o'.id = o.id)
    (hPo : P o = true) (hPo' : P o' = true) :
    jadd (sumP P (insertOrder st o')) o.quantity = jadd (sumP P st) o'.quantity := by
  have h := sumP_insertOrder P hnd ho o' hid
  simpa only [contrib, hPo, hPo', if_true] using h

theorem sumP_insertOrder_frame (P : CreditOrder → Bool) {st : List CreditOrder} {o : CreditOrder}
    (hnd : (orderIds st).Nodup) (ho : o ∈ st) (o' : CreditOrder) (hid : o'.id = o.id)
    (hPo : P o = false) (hPo' : P o' = false) :
    sumP P (insertOrder st o') = sumP P st := by
  have h := sumP_insertOrder P hnd ho o' hid
  simp only [contrib, hPo, hPo', Bool.false_eq_true, if_false] at h
  rw [jadd_zero_right, jadd_zero_right] at h
  exact h

theorem transferLoop_orderIds (now : ℕ) {l st : List CreditOrder} {rem : JNum}
    (hsub : ∀ o ∈ l, o.id ∈ orderIds st) :
    orderIds (transferLoop now rem l st) = orderIds st := by
  induction l generalizing st rem with
  | nil => rfl
  | cons o rest ih =>
      have hoid : o.id ∈ orderIds st := hsub o (List.mem_cons_self _ _)
      by_cases hg : jle o.quantity rem = true
      · simp only [transferLoop, hg, if_true]
        have hX : orderIds (insertOrder st
            { o with is_fulfilled := false, updated_at := some now }) = orderIds st :=
          orderIds_insertOrder_mem _ _ hoid
        rw [ih fun o2 ho2 => hX ▸ hsub o2 (List.mem_cons_of_mem _ ho2), hX]
      · simp only [transferLoop, hg, Bool.false_eq_true, if_false]
        exact orderIds_insertOrder_mem _ _ hoid

theorem transferLoop_getOrder_notin (now : ℕ) {l st : List CreditOrder} {rem : JNum}
    {i : String} (h : ∀ o ∈ l, o.id ≠ i) :
    getOrder (transferLoop now rem l st) i = getOrder st i := by
  induction l generalizing st rem with
  | nil => rfl
  | cons o rest ih =>
      have hne : i ≠ o.id := fun hx => h o (List.mem_cons_self _ _) hx.symm
      by_cases hg : jle o.quantity rem = true
      · simp only [transferLoop, hg, if_true]
        have hX : getOrder (insertOrder st
            { o with is_fulfilled := false, updated_at := some now }) i = getOrder st i :=
          getOrder_insertOrder_ne _ _ _ hne
        rw [ih fun o2 ho2 => h o2 (List.mem_cons_of_mem _ ho2), hX]
      · simp only [transferLoop, hg, Bool.false_eq_true, if_false]
        exact getOrder_insertOrder_ne _ _ _ hne

/-- Core deduction lemma for `transferCredits`: if the snapshot `l` consists
of stored orders all counted by `P`, a full consumption removes an order
from `P` and a partial one keeps it, and the snapshot quantities add up to
`t ≥ r ≥ 0`, then running the loop removes exactly `r` from the `P`-sum. -/
theorem transferLoop_sumP_deduct (now : ℕ) (P : CreditOrder → Bool)
    {l st : List CreditOrder} {r t : ℚ}
    (hnd : (orderIds st).Nodup)
    (hsub : ∀ o ∈ l, o ∈ st)
    (hlnd : (orderIds l).Nodup)
    (hP : ∀ o ∈ l, P o = true)
    (hPfull : ∀ o ∈ l, P { o with is_fulfilled := false, updated_at := some now } = false)
    (hPpart : ∀ o ∈ l, ∀ q : JNum, P { o with quantity := q, updated_at := some now } = true)
    (hsum : jsum (l.map (fun o => o.quantity)) = some t)
    (hr0 : 0 ≤ r) (hrt : r ≤ t) :
    jadd (sumP P (transferLoop now (some r) l st)) (some r) = sumP P st := by
  induction l generalizing st r t with
  | nil =>
      simp only [jsum, List.map_nil, List.foldl_nil, Option.some.injEq] at hsum
      have hr : r = 0 := le_antisymm (hsum ▸ hrt) hr0
      simp [transferLoop, hr, jadd_zero_right]
  | cons o rest ih =>
      rw [List.map_cons, jsum_cons] at hsum
      obtain ⟨q, t', hq, ht', hqt⟩ := jadd_eq_some hsum
      have hmem : o ∈ o :: rest := List.mem_cons_self _ _
      have hoin : o ∈ st := hsub o hmem
      rw [orderIds_cons, List.nodup_cons] at hlnd
      have hrestids : ∀ o2 ∈ rest, o2.id ≠ o.id := by
        intro o2 ho2 hcontra
        exact hlnd.1 (hcontra ▸ mem_orderIds_of_mem ho2)
      by_cases hqr : q ≤ r
      · have hg : jle (some q) (some r) = true := by
          simp only [jle]
          exact decide_eq_true hqr
        simp only [transferLoop, hq, jsub, hg, if_true]
        have hout : jadd (sumP P (insertOrder st
            { o with quantity := some q, is_fulfilled := false, updated_at := some now }))
            (some q) = sumP P st := by
          have h0 := sumP_insertOrder_out P hnd hoin
            { o with quantity := some q, is_fulfilled := false, updated_at := some now } rfl
            (hP o hmem) (by have h1 := hPfull o hmem; rwa [hq] at h1)
          rwa [hq] at h0
        have hids1 : orderIds (insertOrder st
            { o with quantity := some q, is_fulfilled := false, updated_at := some now })
            = orderIds st :=
          orderIds_insertOrder_mem _ _ (@mem_orderIds_of_mem o st hoin)
        have ihap := @ih (insertOrder st
            { o with quantity := some q, is_fulfilled := false, updated_at := some now })
            (r - q) t'
          (by rw [hids1]; exact hnd)
          (fun o2 ho2 => mem_insertOrder_of_ne _ (hsub o2 (List.mem_cons_of_mem _ ho2))
            (hrestids o2 ho2))
          hlnd.2
          (fun o2 ho2 => hP o2 (List.mem_cons_of_mem _ ho2))
          (fun o2 ho2 => hPfull o2 (List.mem_cons_of_mem _ ho2))
          (fun o2 ho2 => hPpart o2 (List.mem_cons_of_mem _ ho2))
          ht' (by linarith) (by linarith)
        have hr2 : r = (r - q) + q := by ring
        calc jadd (sumP P (transferLoop now (some (r - q)) rest (insertOrder st
                { o with quantity := some q, is_fulfilled := false, updated_at := some now })))
                (some r)
            = jadd (jadd (sumP P (transferLoop now (some (r - q)) rest (insertOrder st
                { o with quantity := some q, is_fulfilled := false, updated_at := some now })))
                (some (r - q))) (some q) := by rw [jadd_combine, ← hr2]
          _ = jadd (sumP P (insertOrder st
                { o with quantity := some q, is_fulfilled := false, updated_at := some now }))
                (some q) := by rw [ihap]
          _ = sumP P st := hout
      · have hg : jle (some q) (some r) = false := by
          simp only [jle]
          exact decide_eq_false hqr
        simp only [transferLoop, hq, jsub, hg, Bool.false_eq_true, if_false]
        have hkeep : jadd (sumP P (insertOrder st
            { o with quantity := some (q - r), updated_at := some now })) (some q)
            = jadd (sumP P st) (some (q - r)) := by
          have h0 := sumP_insertOrder_keep P hnd hoin
            { o with quantity := some (q - r), updated_at := some now } rfl
            (hP o hmem) (hPpart o hmem (some (q - r)))
          rw [hq] at h0
          exact h0
        have h2 : jadd (jadd (sumP P (insertOrder st
            { o with quantity := some (q - r), updated_at := some now })) (some r)) (some q)
            = jadd (sumP P st) (some q) := by
          rw [jadd_combine, show r + q = q + r from by ring, ← jadd_combine, hkeep,
            jadd_combine, show q - r + r = q from by ring]
        exact jadd_cancel q h2

/-- Frame lemma: orders not counted by `P` before or after any of the two
write shapes leave the `P`-sum unchanged through the deduction loop. -/
theorem transferLoop_sumP_frame (now : ℕ) (P : CreditOrder → Bool)
    {l st : List CreditOrder} {rem : JNum}
    (hnd : (orderIds st).Nodup)
    (hsub : ∀ o ∈ l, o ∈ st)
    (hlnd : (orderIds l).Nodup)
    (hP : ∀ o ∈ l, P o = false)
    (hPfull : ∀ o ∈ l, P { o with is_fulfilled := false, updated_at := some now } = false)
    (hPpart : ∀ o ∈ l, ∀ q : JNum, P { o with quantity := q, updated_at := some now } = false) :
    sumP P (transferLoop now rem l st) = sumP P st := by
  induction l generalizing st rem with
  | nil => rfl
  | cons o rest ih =>
      have hmem : o ∈ o :: rest := List.mem_cons_self _ _
      have hoin : o ∈ st := hsub o hmem
      rw [orderIds_cons, List.nodup_cons] at hlnd
      have hrestids : ∀ o2 ∈ rest, o2.id ≠ o.id := by
        intro o2 ho2 hcontra
        exact hlnd.1 (hcontra ▸ mem_orderIds_of_mem ho2)
      by_cases hg : jle o.quantity rem = true
      · simp only [transferLoop, hg, if_true]
        have hfr : sumP P (insertOrder st
            { o with is_fulfilled := false, updated_at := some now }) = sumP P st :=
          sumP_insertOrder_frame P hnd hoin _ rfl (hP o hmem) (hPfull o hmem)
        have hids1 : orderIds (insertOrder st
            { o with is_fulfilled := false, updated_at := some now }) = orderIds st :=
          orderIds_insertOrder_mem _ _ (@mem_orderIds_of_mem o st hoin)
        have ihap := @ih (insertOrder st
            { o with is_fulfilled := false, updated_at := some now }) (jsub rem o.quantity)
          (by rw [hids1]; exact hnd)
          (fun o2 ho2 => mem_insertOrder_of_ne _ (hsub o2 (List.mem_cons_of_mem _ ho2))
            (hrestids o2 ho2))
          hlnd.2
          (fun o2 ho2 => hP o2 (List.mem_cons_of_mem _ ho2))
          (fun o2 ho2 => hPfull o2 (List.mem_cons_of_mem _ ho2))
          (fun o2 ho2 => hPpart o2 (List.mem_cons_of_mem _ ho2))
        rw [ihap, hfr]
      · simp only [transferLoop, hg, Bool.false_eq_true, if_false]
        exact sumP_insertOrder_frame P hnd hoin _ rfl (hP o hmem)
          (hPpart o hmem (jsub o.quantity rem))

/-- Every snapshot order ends the deduction loop either untouched, fully
consumed (only `is_fulfilled` and `updated_at` changed), or partially
consumed (only `quantity` and `updated_at` changed). -/
theorem transferLoop_getOrder_entry (now : ℕ)
    {l st : List CreditOrder} {rem : JNum}
    (hnd : (orderIds st).Nodup)
    (hsub : ∀ o ∈ l, o ∈ st)
    (hlnd : (orderIds l).Nodup)
    {o : CreditOrder} (ho : o ∈ l) :
    getOrder (transferLoop now rem l st) o.id = some o
    ∨ getOrder (transferLoop now rem l st) o.id
        = some { o with is_fulfilled := false, updated_at := some now }
    ∨ ∃ q : JNum, getOrder (transferLoop now rem l st) o.id
        = some { o with quantity := q, updated_at := some now } := by
  induction l generalizing st rem with
  | nil => cases ho
  | cons x rest ih =>
      rw [orderIds_cons, List.nodup_cons] at hlnd
      have hxin : x ∈ x :: rest := List.mem_cons_self _ _
      rcases List.mem_cons.mp ho with rfl | ho2
      · have hrestids : ∀ o2 ∈ rest, o2.id ≠ o.id := by
          intro o2 h2 hcontra
          exact hlnd.1 (hcontra ▸ mem_orderIds_of_mem h2)
        by_cases hg : jle o.quantity rem = true
        · right; left
          simp only [transferLoop, hg, if_true]
          rw [transferLoop_getOrder_notin now hrestids]
          exact getOrder_insertOrder_self st _
        · right; right
          refine ⟨jsub o.quantity rem, ?_⟩
          simp only [transferLoop, hg, Bool.false_eq_true, if_false]
          exact getOrder_insertOrder_self st _
      · have hne : o.id ≠ x.id := by
          intro hcontra
          exact hlnd.1 (hcontra ▸ mem_orderIds_of_mem ho2)
        by_cases hg : jle x.quantity rem = true
        · simp only [transferLoop, hg, if_true]
          have hids1 : orderIds (insertOrder st
              { x with is_fulfilled := false, updated_at := some now }) = orderIds st :=
            orderIds_insertOrder_mem _ _ (@mem_orderIds_of_mem x st (hsub x hxin))
          exact ih (by rw [hids1]; exact hnd)
            (fun o2 h2 => mem_insertOrder_of_ne _ (hsub o2 (List.mem_cons_of_mem _ h2))
              (fun hcontra => hlnd.1 (hcontra ▸ mem_orderIds_of_mem h2)))
            hlnd.2 ho2
        · left
          simp only [transferLoop, hg, Bool.false_eq_true, if_false]
          have hX : getOrder (insertOrder st
              { x with quantity := jsub x.quantity rem, updated_at := some now }) o.id
              = getOrder st o.id :=
            getOrder_insertOrder_ne _ _ _ hne
          rw [hX]
          exact getOrder_eq_some_of_mem hnd (hsub o (List.mem_cons_of_mem _ ho2))

/-! ### Lemmas about the allocation pass -/

theorem fulfillOrders_store_mem (now : ℕ) {snap st : List CreditOrder} {rem : JNum}
    {x : CreditOrder} (hx : x ∈ st) (hxid : x.id ∉ orderIds snap) :
    x ∈ (fulfillOrders now rem snap st).store := by
  induction snap generalizing st rem with
  | nil => exact hx
  | cons o rest ih =>
      rw [orderIds_cons, List.mem_cons] at hxid
      push_neg at hxid
      by_cases hg : jge rem o.quantity = true
      · simp only [fulfillOrders, hg, if_true]
        exact ih (mem_insertOrder_of_ne _ hx hxid.1) hxid.2
      · simp only [fulfillOrders, hg, Bool.false_eq_true, if_false]
        exact ih hx hxid.2

theorem fulfillOrders_snapshot_ids (now : ℕ) (snap st : List CreditOrder) (rem : JNum) :
    orderIds (fulfillOrders now rem snap st).snapshot = orderIds snap := by
  induction snap generalizing st rem with
  | nil => rfl
  | cons o rest ih =>
      by_cases hg : jge rem o.quantity = true
      · simp only [fulfillOrders, hg, if_true, orderIds_cons]
        rw [ih]
      · simp only [fulfillOrders, hg, Bool.false_eq_true, if_false, orderIds_cons]
        rw [ih]

theorem fulfillOrders_store_ids (now : ℕ) {snap st : List CreditOrder} {rem : JNum}
    (hsub : ∀ o ∈ snap, o.id ∈ orderIds st) :
    orderIds (fulfillOrders now rem snap st).store = orderIds st := by
  induction snap generalizing st rem with
  | nil => rfl
  | cons o rest ih =>
      have hoid : o.id ∈ orderIds st := hsub o (List.mem_cons_self _ _)
      by_cases hg : jge rem o.quantity = true
      · simp only [fulfillOrders, hg, if_true]
        have hX : orderIds (insertOrder st
            { o with is_fulfilled := true, updated_at := some now }) = orderIds st :=
          orderIds_insertOrder_mem _ _ hoid
        rw [ih fun o2 ho2 => hX ▸ hsub o2 (List.mem_cons_of_mem _ ho2), hX]
      · simp only [fulfillOrders, hg, Bool.false_eq_true, if_false]
        exact ih fun o2 ho2 => hsub o2 (List.mem_cons_of_mem _ ho2)

theorem fulfillOrders_events_ids (now : ℕ) {snap st : List CreditOrder} {rem : JNum}
    {e : String × Bool} (he : e ∈ (fulfillOrders now rem snap st).events) :
    e.1 ∈ orderIds snap := by
  induction snap generalizing st rem with
  | nil => cases he
  | cons o rest ih =>
      by_cases hg : jge rem o.quantity = true
      · simp only [fulfillOrders, hg, if_true] at he
        rcases List.mem_cons.mp he with rfl | he2
        · exact List.mem_cons_self _ _
        · exact List.mem_cons_of_mem _ (ih he2)
      · simp only [fulfillOrders, hg, Bool.false_eq_true, if_false] at he
        exact List.mem_cons_of_mem _ (ih he)

/-- Running the inner loop with a NaN `remainingEnergy` counter (a producer
whose supply does not parse) changes nothing: every comparison with NaN is
false, so no order is fulfilled, nothing is charged and no write happens. -/
theorem fulfillOrders_none (now : ℕ) (snap st : List CreditOrder) :
    fulfillOrders now none snap st = ⟨snap, st, none, [], []⟩ := by
  induction snap generalizing st with
  | nil => rfl
  | cons o rest ih =>
      have hg : jge none o.quantity = false := by cases h : o.quantity <;> rfl
      simp only [fulfillOrders, hg, Bool.false_eq_true, if_false, ih]

/-- Per-producer attribution bound: the quantities charged against one
producer always add up to at most the producer's initial counter value. -/
theorem fulfillOrders_charged (now : ℕ) {snap st : List CreditOrder} {v : ℚ}
    (hv : 0 ≤ v) :
    ∃ c : ℚ, jsum (fulfillOrders now (some v) snap st).charged = some c ∧ c ≤ v := by
  induction snap generalizing st v with
  | nil => exact ⟨0, rfl, hv⟩
  | cons o rest ih =>
      cases hq : o.quantity with
      | none =>
          have hg : jge (some v) o.quantity = false := by rw [hq]; rfl
          simp only [fulfillOrders, hg, Bool.false_eq_true, if_false]
          exact ih hv
      | some q =>
          by_cases hqv : q ≤ v
          · have hg : jge (some v) o.quantity = true := by
              rw [hq]
              simp only [jge]
              exact decide_eq_true hqv
            simp only [fulfillOrders, hg, if_true]
            obtain ⟨c, hc, hcle⟩ := @ih (insertOrder st
              { o with is_fulfilled := true, updated_at := some now }) (v - q) (by linarith)
            have hrem : jsub (some v) o.quantity = some (v - q) := by rw [hq]; rfl
            rw [hrem]
            refine ⟨q + c, ?_, by linarith⟩
            show jsum (o.quantity :: (fulfillOrders now (some (v - q)) rest (insertOrder st
              { o with is_fulfilled := true, updated_at := some now })).charged) = some (q + c)
            rw [jsum_cons, hc, hq]
            rfl
          · have hg : jge (some v) o.quantity = false := by
              rw [hq]
              simp only [jge]
              exact decide_eq_false hqv
            simp only [fulfillOrders, hg, Bool.false_eq_true, if_false]
            exact ih hv

/-- Number of fulfillment events recorded for order id `i` whose previous
`is_fulfilled` flag was `false`, i.e. actual false-to-true flag writes. -/
def countFalseEvents (evs : List (String × Bool)) (i : String) : ℕ :=
  (evs.filter (fun e => e.1 == i && e.2 == false)).length

theorem countFalseEvents_cons (e : String × Bool) (evs : List (String × Bool)) (i : String) :
    countFalseEvents (e :: evs) i
      = (if (e.1 == i && e.2 == false) = true then 1 else 0) + countFalseEvents evs i := by
  rw [countFalseEvents, List.filter_cons]
  split
  · rw [List.length_cons, countFalseEvents]
    omega
  · rw [countFalseEvents]
    omega

theorem countFalseEvents_append (a b : List (String × Bool)) (i : String) :
    countFalseEvents (a ++ b) i = countFalseEvents a i + countFalseEvents b i := by
  rw [countFalseEvents, List.filter_append, List.length_append]
  rfl

theorem countFalseEvents_zero {evs : List (String × Bool)} {i : String}
    (h : ∀ e ∈ evs, e.1 ≠ i) : countFalseEvents evs i = 0 := by
  induction evs with
  | nil => rfl
  | cons e evs ih =>
      rw [countFalseEvents_cons]
      have h1 : (e.1 == i) = false := by
        simp only [beq_eq_false_iff_ne, ne_eq]
        exact h e (List.mem_cons_self _ _)
      rw [h1, Bool.false_and, if_neg (by simp)]
      rw [ih fun e2 he2 => h e2 (List.mem_cons_of_mem _ he2)]

/-- One producer pass, seen from one snapshot order: either the order is
skipped (left unchanged in the snapshot, no fulfillment event for its id),
or it is written exactly once (marked fulfilled in the snapshot, with one
event recording its previous `is_fulfilled` value and no other event for
its id). -/
theorem fulfillOrders_entry (now : ℕ) {snap st : List CreditOrder} {rem : JNum}
    (hlnd : (orderIds snap).Nodup) {o : CreditOrder} (ho : o ∈ snap) :
    (getOrder (fulfillOrders now rem snap st).snapshot o.id = some o
       ∧ (∀ e ∈ (fulfillOrders now rem snap st).events, e.1 ≠ o.id))
    ∨ (getOrder (fulfillOrders now rem snap st).snapshot o.id
         = some { o with is_fulfilled := true, updated_at := some now }
       ∧ ∃ evs1 evs2, (fulfillOrders now rem snap st).events
             = evs1 ++ (o.id, o.is_fulfilled) :: evs2
           ∧ (∀ e ∈ evs1, e.1 ≠ o.id) ∧ (∀ e ∈ evs2, e.1 ≠ o.id)) := by
  induction snap generalizing st rem with
  | nil => cases ho
  | cons x rest ih =>
      rw [orderIds_cons, List.nodup_cons] at hlnd
      rcases List.mem_cons.mp ho with rfl | ho2
      · have hrest : ∀ e ∈ (fulfillOrders now (jsub rem o.quantity) rest
            (insertOrder st { o with is_fulfilled := true, updated_at := some now })).events,
            e.1 ≠ o.id := by
          intro e he hcontra
          exact hlnd.1 (hcontra ▸ fulfillOrders_events_ids now he)
        have hrest2 : ∀ e ∈ (fulfillOrders now rem rest st).events, e.1 ≠ o.id := by
          intro e he hcontra
          exact hlnd.1 (hcontra ▸ fulfillOrders_events_ids now he)
        by_cases hg : jge rem o.quantity = true
        · right
          simp only [fulfillOrders, hg, if_true]
          refine ⟨find?_cons_pos _ (by simp), [], _, rfl, ?_, hrest⟩
          intro e he
          cases he
        · left
          simp only [fulfillOrders, hg, Bool.false_eq_true, if_false]
          exact ⟨find?_cons_pos _ (by simp), hrest2⟩
      · have hne : x.id ≠ o.id := by
          intro hcontra
          exact hlnd.1 (hcontra ▸ mem_orderIds_of_mem ho2)
        by_cases hg : jge rem x.quantity = true
        · have hih := @ih (insertOrder st { x with is_fulfilled := true, updated_at := some now })
            (jsub rem x.quantity) hlnd.2 ho2
          simp only [fulfillOrders, hg, if_true]
          rcases hih with ⟨hl, he⟩ | ⟨hl, evs1, evs2, hev, h1, h2⟩
          · left
            refine ⟨?_, ?_⟩
            · show List.find? _ _ = _
              rw [find?_cons_neg _ (by simp [hne])]
              exact hl
            · intro e hein
              rcases List.mem_cons.mp hein with rfl | he2
              · exact hne
              · exact he e he2
          · right
            refine ⟨?_, (x.id, x.is_fulfilled) :: evs1, evs2, ?_, ?_, h2⟩
            · show List.find? _ _ = _
              rw [find?_cons_neg _ (by simp [hne])]
              exact hl
            · rw [List.cons_append, hev]
            · intro e hein
              rcases List.mem_cons.mp hein with rfl | he2
              · exact hne
              · exact h1 e he2
        · have hih := @ih st rem hlnd.2 ho2
          simp only [fulfillOrders, hg, Bool.false_eq_true, if_false]
          rcases hih with ⟨hl, he⟩ | ⟨hl, evs1, evs2, hev, h1, h2⟩
          · left
            refine ⟨?_, he⟩
            show List.find? _ _ = _
            rw [find?_cons_neg _ (by simp [hne])]
            exact hl
          · right
            refine ⟨?_, evs1, evs2, hev, h1, h2⟩
            show List.find? _ _ = _
            rw [find?_cons_neg _ (by simp [hne])]
            exact hl

theorem allocAll_snapshot_ids (now : ℕ) (ps : List Producer) (snap st : List CreditOrder) :
    orderIds (allocAll now ps snap st).snapshot = orderIds snap := by
  induction ps generalizing snap st with
  | nil => rfl
  | cons p ps ih =>
      simp only [allocAll]
      rw [ih, fulfillOrders_snapshot_ids]

theorem allocAll_store_mem (now : ℕ) {ps : List Producer} {snap st : List CreditOrder}
    {x : CreditOrder} (hx : x ∈ st) (hxid : x.id ∉ orderIds snap) :
    x ∈ (allocAll now ps snap st).store := by
  induction ps generalizing snap st with
  | nil => exact hx
  | cons p ps ih =>
      simp only [allocAll]
      exact ih (fulfillOrders_store_mem now hx hxid)
        (by rw [fulfillOrders_snapshot_ids]; exact hxid)

theorem allocAll_store_ids (now : ℕ) {ps : List Producer} {snap st : List CreditOrder}
    (hsub : ∀ o ∈ snap, o.id ∈ orderIds st) :
    orderIds (allocAll now ps snap st).store = orderIds st := by
  induction ps generalizing snap st with
  | nil => rfl
  | cons p ps ih =>
      simp only [allocAll]
      have h1 : orderIds (fulfillOrders now p.renewable_energy_supply snap st).store
          = orderIds st := fulfillOrders_store_ids now hsub
      have hsub2 : ∀ o ∈ (fulfillOrders now p.renewable_energy_supply snap st).snapshot,
          o.id ∈ orderIds (fulfillOrders now p.renewable_energy_supply snap st).store := by
        intro o ho
        rw [h1]
        have h2 : o.id ∈ orderIds (fulfillOrders now p.renewable_energy_supply snap st).snapshot :=
          mem_orderIds_of_mem ho
        rw [fulfillOrders_snapshot_ids] at h2
        rcases List.mem_map.mp h2 with ⟨y, hy, hyid⟩
        exact hyid ▸ hsub y hy
      rw [ih hsub2, h1]

theorem allocAll_events_ids (now : ℕ) {ps : List Producer} {snap st : List CreditOrder}
    {e : String × Bool} (he : e ∈ (allocAll now ps snap st).events) :
    e.1 ∈ orderIds snap := by
  induction ps generalizing snap st with
  | nil => cases he
  | cons p ps ih =>
      simp only [allocAll] at he
      rcases List.mem_append.mp he with h1 | h1
      · exact fulfillOrders_events_ids now h1
      · have h2 := ih h1
        rwa [fulfillOrders_snapshot_ids] at h2

theorem allocAll_perProducer (now : ℕ) {ps : List Producer} {snap st : List CreditOrder}
    {p : Producer} {ch : List JNum}
    (h : (p, ch) ∈ (allocAll now ps snap st).perProducer) :
    ∃ snap2 st2, ch = (fulfillOrders now p.renewable_energy_supply snap2 st2).charged := by
  induction ps generalizing snap st with
  | nil => cases h
  | cons p2 ps ih =>
      simp only [allocAll] at h
      rcases List.mem_cons.mp h with h1 | h1
      · have hp : p = p2 := congrArg Prod.fst h1
        have hch : ch = (fulfillOrders now p2.renewable_energy_supply snap st).charged :=
          congrArg Prod.snd h1
        subst hp
        exact ⟨snap, st, hch⟩
      · exact ih h1

/-- Across the whole pass: each snapshot order receives at most one
false-to-true fulfillment write, and none at all if its snapshot entry is
already fulfilled. -/
theorem allocAll_countFalse (now : ℕ) {ps : List Producer} {snap st : List CreditOrder}
    (hlnd : (orderIds snap).Nodup) {o : CreditOrder} (ho : o ∈ snap) :
    countFalseEvents (allocAll now ps snap st).events o.id
      ≤ if o.is_fulfilled = true then 0 else 1 := by
  induction ps generalizing snap st o with
  | nil =>
      rw [show (allocAll now [] snap st).events = [] from rfl, countFalseEvents_zero
        (by intro e he; cases he)]
      split <;> omega
  | cons p ps ih =>
      simp only [allocAll]
      rw [countFalseEvents_append]
      have hnd2 : (orderIds (fulfillOrders now p.renewable_energy_supply snap st).snapshot).Nodup := by
        rw [fulfillOrders_snapshot_ids]
        exact hlnd
      rcases @fulfillOrders_entry now snap st p.renewable_energy_supply hlnd o ho
        with ⟨hl, he⟩ | ⟨hl, evs1, evs2, hev, h1, h2⟩
      · rw [countFalseEvents_zero he, Nat.zero_add]
        exact ih hnd2 (List.mem_of_find?_eq_some hl)
      · have hrest := @ih (fulfillOrders now p.renewable_energy_supply snap st).snapshot
          (fulfillOrders now p.renewable_energy_supply snap st).store hnd2
          { o with is_fulfilled := true, updated_at := some now }
          (List.mem_of_find?_eq_some hl)
        have hflag : ({ o with is_fulfilled := true, updated_at := some now } :
            CreditOrder).is_fulfilled = true := rfl
        rw [hflag, if_pos rfl, Nat.le_zero] at hrest
        rw [hrest, Nat.add_zero, hev, countFalseEvents_append, countFalseEvents_zero h1,
          countFalseEvents_cons, countFalseEvents_zero h2, Nat.zero_add, Nat.add_zero]
        cases hof : o.is_fulfilled with
        | true => simp [hof]
        | false => simp [hof]

/-! ### Claim theorems -/

/-- Reflects the `!fromClient.id` check of `transferCredits`: the lookup
result is treated as invalid when the id is absent or the stored id string
is empty (the falsy-id check on the `{}` default). -/
def clientLookupFailed (s : State) (i : String) : Bool :=
  match s.clientStorage.find? (fun c => c.id == i) with
  | some c => c.id == ""
  | none => true

/-- C8: `updateCreditOrderFulfillment` never writes producer, client,
contract or energy-source storage; only the credit-order store can change
(the producer supply is consumed only through the local `remainingEnergy`
counter). -/
theorem C8_allocation_producer_frame (now : ℕ) (s : State) :
    (updateCreditOrderFulfillment now s).2.producerStorage = s.producerStorage
    ∧ (updateCreditOrderFulfillment now s).2.clientStorage = s.clientStorage
    ∧ (updateCreditOrderFulfillment now s).2.contractStorage = s.contractStorage
    ∧ (updateCreditOrderFulfillment now s).2.energySourceStorage = s.energySourceStorage := by
  rw [updateCreditOrderFulfillment]
  split
  · exact ⟨rfl, rfl, rfl, rfl⟩
  · exact ⟨rfl, rfl, rfl, rfl⟩

/-- C5: the three `transferCredits` validations fire in order, first
failure wins, each returns its specific message, and in every failure case
the returned state is exactly the input state (no store is mutated). -/
theorem C5_transfer_validation_order (now : ℕ) (newId fromClientID toClientID quantity : String)
    (s : State) :
    ((clientLookupFailed s fromClientID || clientLookupFailed s toClientID) = true →
        transferCredits now newId fromClientID toClientID quantity s = ("Invalid client IDs", s))
    ∧ ((clientLookupFailed s fromClientID || clientLookupFailed s toClientID) = false →
        (jIsNaN (parseFloat quantity) || jle (parseFloat quantity) (some 0)) = true →
        transferCredits now newId fromClientID toClientID quantity s
          = ("Invalid quantity for credit transfer", s))
    ∧ ((clientLookupFailed s fromClientID || clientLookupFailed s toClientID) = false →
        (jIsNaN (parseFloat quantity) || jle (parseFloat quantity) (some 0)) = false →
        jlt (jsum ((s.creditOrderStorage.filter
            (fun o => o.client_id == fromClientID && o.is_fulfilled)).map
            (fun o => o.quantity))) (parseFloat quantity) = true →
        transferCredits now newId fromClientID toClientID quantity s
          = ("Insufficient fulfilled credits for transfer", s)) := by
  refine ⟨?_, ?_, ?_⟩
  · intro h1
    rcases hf : s.clientStorage.find? (fun c => c.id == fromClientID) with _ | fc
    · simp only [transferCredits, hf]
    · rcases ht : s.clientStorage.find? (fun c => c.id == toClientID) with _ | tc
      · simp only [transferCredits, hf, ht]
      · simp only [clientLookupFailed, hf, ht] at h1
        simp only [transferCredits, hf, ht, h1, if_true]
  · intro h1 h2
    rcases hf : s.clientStorage.find? (fun c => c.id == fromClientID) with _ | fc
    · simp [clientLookupFailed, hf] at h1
    · rcases ht : s.clientStorage.find? (fun c => c.id == toClientID) with _ | tc
      · simp [clientLookupFailed, ht] at h1
      · simp only [clientLookupFailed, hf, ht] at h1
        simp only [transferCredits, hf, ht, h1, Bool.false_eq_true, if_false, h2, if_true]
  · intro h1 h2 h3
    rcases hf : s.clientStorage.find? (fun c => c.id == fromClientID) with _ | fc
    · simp [clientLookupFailed, hf] at h1
    · rcases ht : s.clientStorage.find? (fun c => c.id == toClientID) with _ | tc
      · simp [clientLookupFailed, ht] at h1
      · simp only [clientLookupFailed, hf, ht] at h1
        simp only [transferCredits, hf, ht, h1, Bool.false_eq_true, if_false, h2, h3, if_true]

/-- Witness for C5 at a concrete failing input (unknown client ids on an
empty client store). -/
theorem C5_transfer_validation_order_witness :
    (clientLookupFailed ⟨[], [], [], [], []⟩ "A"
        || clientLookupFailed ⟨[], [], [], [], []⟩ "B") = true
    ∧ transferCredits 1 "n" "A" "B" "5" ⟨[], [], [], [], []⟩
        = ("Invalid client IDs", ⟨[], [], [], [], []⟩) :=
  ⟨by decide, (C5_transfer_validation_order 1 "n" "A" "B" "5" ⟨[], [], [], [], []⟩).1 (by decide)⟩

/-- Concrete state for claim C6: one producer with a non-numeric
(`NaN`-parsing) supply and one unfulfilled order. -/
def stateC6 : State :=
  ⟨[⟨"p1", "prod", none, 0, none⟩], [⟨"A", "alice", 0, none⟩], [],
    [⟨"u1", "A", some 5, some 1, false, 0, none⟩], []⟩

/-- Counterexample for C6: a producer with non-numeric supply is NOT a
fatal input error — the pass completes with the ordinary success message
and simply leaves everything unchanged (the producer is silently skipped). -/
theorem C6_counterexample :
    (updateCreditOrderFulfillment 7 stateC6).1
        = "Credit order fulfillment updated based on renewable energy supply"
    ∧ (updateCreditOrderFulfillment 7 stateC6).2 = stateC6
    ∧ (updateCreditOrderFulfillment 7 stateC6).1 ≠ "No producers or unfulfilled credit orders found" := by
  refine ⟨by decide, by decide, by decide⟩

/-- C6 amended: a producer whose `renewable_energy_supply` parses to NaN is
silently skipped by the allocation pass — its inner loop changes neither
the snapshot nor the store, charges nothing and records no event — and the
operation still returns the ordinary success message. -/
theorem C6_nan_supply_skipped :
    (∀ (now : ℕ) (snap st : List CreditOrder),
        fulfillOrders now none snap st = ⟨snap, st, none, [], []⟩)
    ∧ (∀ (now : ℕ) (ps : List Producer) (snap st : List CreditOrder) (p : Producer)
          (ch : List JNum), (p, ch) ∈ (allocAll now ps snap st).perProducer →
          p.renewable_energy_supply = none → ch = [])
    ∧ (∀ (now : ℕ) (s : State), s.producerStorage ≠ [] →
          s.creditOrderStorage.filter (fun o => !o.is_fulfilled) ≠ [] →
          (updateCreditOrderFulfillment now s).1
            = "Credit order fulfillment updated based on renewable energy supply") := by
  refine ⟨fulfillOrders_none, ?_, ?_⟩
  · intro now ps snap st p ch h hp
    obtain ⟨snap2, st2, hch⟩ := allocAll_perProducer now h
    rw [hch, hp, fulfillOrders_none]
  · intro now s h1 h2
    have hp : s.producerStorage.isEmpty = false := by
      cases hps : s.producerStorage with
      | nil => exact absurd hps h1
      | cons a l => rfl
    have hq : (s.creditOrderStorage.filter (fun o => !o.is_fulfilled)).isEmpty = false := by
      cases hqs : s.creditOrderStorage.filter (fun o => !o.is_fulfilled) with
      | nil => exact absurd hqs h2
      | cons a l => rfl
    simp only [updateCreditOrderFulfillment, hp, hq, Bool.or_self, Bool.false_eq_true, if_false]

/-- Witness for C6 amended at the concrete NaN-supply state. -/
theorem C6_nan_supply_skipped_witness :
    ((⟨"p1", "prod", none, 0, none⟩ : Producer), ([] : List JNum))
        ∈ (allocAll 7 stateC6.producerStorage
            (stateC6.creditOrderStorage.filter (fun o => !o.is_fulfilled))
            stateC6.creditOrderStorage).perProducer
    ∧ stateC6.producerStorage ≠ []
    ∧ stateC6.creditOrderStorage.filter (fun o => !o.is_fulfilled) ≠ []
    ∧ (([] : List JNum) = [])
    ∧ (updateCreditOrderFulfillment 7 stateC6).1
        = "Credit order fulfillment updated based on renewable energy supply" :=
  ⟨by decide, by decide, by decide,
    C6_nan_supply_skipped.2.1 7 stateC6.producerStorage
      (stateC6.creditOrderStorage.filter (fun o => !o.is_fulfilled))
      stateC6.creditOrderStorage ⟨"p1", "prod", none, 0, none⟩ [] (by decide) rfl,
    C6_nan_supply_skipped.2.2 7 stateC6 (by decide) (by decide)⟩

/-- Counterexample for C7: fulfilling a negative-quantity order does NOT
leave the remaining counter unchanged — it increases it (10 − (−5) = 15),
and the inflated counter lets a later 12-unit order be fulfilled although
only 10 units of supply were stated. -/
theorem C7_counterexample :
    (fulfillOrders 9 (some 10) [⟨"n1", "A", some (-5), some 1, false, 0, none⟩] []).remaining
        = some 15
    ∧ (some (15 : ℚ) : JNum) ≠ some 10
    ∧ ((fulfillOrders 9 (some 10) [⟨"n1", "A", some (-5), some 1, false, 0, none⟩,
          ⟨"n2", "A", some 12, some 1, false, 0, none⟩] []).snapshot.map
          (fun o => o.is_fulfilled)) = [true, true] := by
  have e1 : jge (some 10) (some (-5) : JNum) = true := by decide
  have e2 : jsub (some 10) (some (-5) : JNum) = some 15 := by
    simp only [jsub, Option.some.injEq]
    norm_num
  have e3 : jge (some 15) (some 12 : JNum) = true := by decide
  refine ⟨?_, by decide, ?_⟩
  · simp [fulfillOrders, e1, e2]
  · simp [fulfillOrders, e1, e2, e3, insertOrder]

/-- C7 amended: an unfulfilled order with zero or negative quantity is
eligible and is fulfilled whenever the remaining counter is at least its
quantity; it is charged its own (nonpositive) quantity, so the counter
continues as `r − q` — unchanged exactly when the quantity is zero, and
increased when it is negative. -/
theorem C7_zero_negative_orders (now : ℕ) (r q : ℚ) (o : CreditOrder)
    (rest st : List CreditOrder)
    (hq : o.quantity = some q) (hq0 : q ≤ 0) (hqr : q ≤ r) :
    (fulfillOrders now (some r) (o :: rest) st
      = ⟨{ o with is_fulfilled := true, updated_at := some now } ::
           (fulfillOrders now (some (r - q)) rest
             (insertOrder st { o with is_fulfilled := true, updated_at := some now })).snapshot,
         (fulfillOrders now (some (r - q)) rest
           (insertOrder st { o with is_fulfilled := true, updated_at := some now })).store,
         (fulfillOrders now (some (r - q)) rest
           (insertOrder st { o with is_fulfilled := true, updated_at := some now })).remaining,
         o.quantity :: (fulfillOrders now (some (r - q)) rest
           (insertOrder st { o with is_fulfilled := true, updated_at := some now })).charged,
         (o.id, o.is_fulfilled) :: (fulfillOrders now (some (r - q)) rest
           (insertOrder st { o with is_fulfilled := true, updated_at := some now })).events⟩)
    ∧ (q = 0 → r - q = r) := by
  have hg : jge (some r) o.quantity = true := by
    rw [hq]
    simp only [jge]
    exact decide_eq_true hqr
  constructor
  · have hsub2 : jsub (some r) o.quantity = some (r - q) := by rw [hq]; rfl
    simp only [fulfillOrders, hg, if_true, hsub2]
  · intro h
    rw [h, sub_zero]

/-- Witness for C7 amended: a zero-quantity order is fulfilled and the
counter is unchanged (10 − 0 = 10). -/
theorem C7_zero_negative_orders_witness :
    ((⟨"z", "A", some 0, some 0, false, 0, none⟩ : CreditOrder).quantity = some 0)
    ∧ ((0 : ℚ) ≤ 0) ∧ ((0 : ℚ) ≤ 10)
    ∧ fulfillOrders 3 (some 10) [⟨"z", "A", some 0, some 0, false, 0, none⟩] []
        = ⟨[⟨"z", "A", some 0, some 0, true, 0, some 3⟩],
            [⟨"z", "A", some 0, some 0, true, 0, some 3⟩], some 10, [some 0], [("z", false)]⟩ := by
  refine ⟨rfl, by decide, by decide, ?_⟩
  have h := (C7_zero_negative_orders 3 10 0 ⟨"z", "A", some 0, some 0, false, 0, none⟩ [] []
    rfl (by decide) (by decide)).1
  rw [h]
  simp [fulfillOrders, insertOrder]

/-- C3: after an allocation pass, for every producer whose supply parses
to a (per the data model, non-negative) number `v`, the quantities of the
orders charged against that producer sum to at most `v`. -/
theorem C3_no_overallocation (now : ℕ) (s : State) (p : Producer) (ch : List JNum) (v : ℚ)
    (h : (p, ch) ∈ (allocAll now s.producerStorage
        (s.creditOrderStorage.filter (fun o => !o.is_fulfilled))
        s.creditOrderStorage).perProducer)
    (hp : p.renewable_energy_supply = some v) (hv : 0 ≤ v) :
    ∃ c : ℚ, jsum ch = some c ∧ c ≤ v := by
  obtain ⟨snap2, st2, hch⟩ := allocAll_perProducer now h
  rw [hch, hp]
  exact fulfillOrders_charged now hv

/-- Concrete state for the C3 witness: one producer with supply 100, one
unfulfilled order of quantity 40 (plus a fulfilled one). -/
def stateC3 : State :=
  ⟨[⟨"p1", "prod", some 100, 0, none⟩], [⟨"A", "alice", 0, none⟩], [],
    [⟨"u1", "A", some 40, some 1, false, 0, none⟩], []⟩

/-- Witness for C3 at a concrete input. -/
theorem C3_no_overallocation_witness :
    ((⟨"p1", "prod", some 100, 0, none⟩ : Producer), ([some 40] : List JNum))
        ∈ (allocAll 4 stateC3.producerStorage
            (stateC3.creditOrderStorage.filter (fun o => !o.is_fulfilled))
            stateC3.creditOrderStorage).perProducer
    ∧ (⟨"p1", "prod", some 100, 0, none⟩ : Producer).renewable_energy_supply = some 100
    ∧ (0 : ℚ) ≤ 100
    ∧ ∃ c : ℚ, jsum [some 40] = some c ∧ c ≤ 100 :=
  ⟨by decide, rfl, by decide,
    C3_no_overallocation 4 stateC3 ⟨"p1", "prod", some 100, 0, none⟩ [some 40] 100
      (by decide) rfl (by decide)⟩

/-- C4: in one allocation call, an order that was already fulfilled before
the call is left completely untouched (the exact record is still stored,
and the set of stored ids is unchanged), and no order id receives more
than one false-to-true `is_fulfilled` write during the pass. -/
theorem C4_at_most_once_fulfillment (now : ℕ) (s : State)
    (hnd : (orderIds s.creditOrderStorage).Nodup) :
    (∀ o ∈ s.creditOrderStorage, o.is_fulfilled = true →
        o ∈ (updateCreditOrderFulfillment now s).2.creditOrderStorage)
    ∧ orderIds (updateCreditOrderFulfillment now s).2.creditOrderStorage
        = orderIds s.creditOrderStorage
    ∧ (∀ i : String,
        countFalseEvents (allocAll now s.producerStorage
          (s.creditOrderStorage.filter (fun o => !o.is_fulfilled))
          s.creditOrderStorage).events i ≤ 1) := by
  have hsubids : ∀ o ∈ s.creditOrderStorage.filter (fun o => !o.is_fulfilled),
      o.id ∈ orderIds s.creditOrderStorage :=
    fun o ho => mem_orderIds_of_mem (List.mem_filter.mp ho).1
  have hsnapnd : (orderIds (s.creditOrderStorage.filter (fun o => !o.is_fulfilled))).Nodup :=
    List.Nodup.sublist (List.Sublist.map _ (List.filter_sublist _)) hnd
  refine ⟨?_, ?_, ?_⟩
  · intro o ho hof
    by_cases hcond : (s.producerStorage.isEmpty
        || (s.creditOrderStorage.filter (fun o => !o.is_fulfilled)).isEmpty) = true
    · simp only [updateCreditOrderFulfillment, hcond, if_true]
      exact ho
    · simp only [updateCreditOrderFulfillment, hcond, Bool.false_eq_true, if_false]
      refine allocAll_store_mem now ho ?_
      intro hcontra
      rcases List.mem_map.mp hcontra with ⟨y, hy, hyid⟩
      have hyst : y ∈ s.creditOrderStorage := (List.mem_filter.mp hy).1
      have hyo : y = o := mem_id_unique hnd hyst ho hyid
      have hyf := (List.mem_filter.mp hy).2
      rw [hyo, hof] at hyf
      simp at hyf
  · by_cases hcond : (s.producerStorage.isEmpty
        || (s.creditOrderStorage.filter (fun o => !o.is_fulfilled)).isEmpty) = true
    · simp only [updateCreditOrderFulfillment, hcond, if_true]
    · simp only [updateCreditOrderFulfillment, hcond, Bool.false_eq_true, if_false]
      exact allocAll_store_ids now hsubids
  · intro i
    by_cases hex : ∃ o ∈ s.creditOrderStorage.filter (fun o => !o.is_fulfilled), o.id = i
    · obtain ⟨o, ho, rfl⟩ := hex
      have hb := @allocAll_countFalse now s.producerStorage
        (s.creditOrderStorage.filter (fun o => !o.is_fulfilled)) s.creditOrderStorage
        hsnapnd o ho
      split at hb
      · omega
      · omega
    · have h0 : countFalseEvents (allocAll now s.producerStorage
          (s.creditOrderStorage.filter (fun o => !o.is_fulfilled))
          s.creditOrderStorage).events i = 0 := by
        refine countFalseEvents_zero ?_
        intro e he hcontra
        have hm := allocAll_events_ids now he
        rw [hcontra] at hm
        rcases List.mem_map.mp hm with ⟨y, hy, hyid⟩
        exact hex ⟨y, hy, hyid⟩
      omega

/-- Concrete state for the C4 witness. -/
def stateC4 : State :=
  ⟨[⟨"p1", "prod", some 10, 0, none⟩], [⟨"A", "alice", 0, none⟩], [],
    [⟨"f1", "A", some 5, some 1, true, 0, none⟩,
     ⟨"u1", "A", some 5, some 1, false, 0, none⟩], []⟩

/-- Witness for C4 at a concrete input. -/
theorem C4_at_most_once_fulfillment_witness :
    (orderIds stateC4.creditOrderStorage).Nodup
    ∧ (⟨"f1", "A", some 5, some 1, true, 0, none⟩ : CreditOrder)
        ∈ (updateCreditOrderFulfillment 2 stateC4).2.creditOrderStorage
    ∧ countFalseEvents (allocAll 2 stateC4.producerStorage
        (stateC4.creditOrderStorage.filter (fun o => !o.is_fulfilled))
        stateC4.creditOrderStorage).events "u1" ≤ 1 :=
  ⟨by decide,
    (C4_at_most_once_fulfillment 2 stateC4 (by decide)).1
      ⟨"f1", "A", some 5, some 1, true, 0, none⟩ (by decide) rfl,
    (C4_at_most_once_fulfillment 2 stateC4 (by decide)).2.2 "u1"⟩

theorem jadd_some_right_eq {x : JNum} {a c : ℚ} (h : jadd x (some a) = some c) :
    x = some (c - a) := by
  cases x with
  | none => simp [jadd] at h
  | some b =>
      simp only [jadd, Option.some.injEq] at h ⊢
      linarith

theorem sumP_append_one_pos (P : CreditOrder → Bool) (st : List CreditOrder) (o : CreditOrder)
    (h : P o = true) : sumP P (st ++ [o]) = jadd (sumP P st) o.quantity := by
  rw [sumP_append, show sumP P [o] = jadd o.quantity (some 0) from by simp [sumP, h],
    jadd_zero_right]

theorem sumP_append_one_neg (P : CreditOrder → Bool) (st : List CreditOrder) (o : CreditOrder)
    (h : P o = false) : sumP P (st ++ [o]) = sumP P st := by
  rw [sumP_append, show sumP P [o] = some 0 from by simp [sumP, h], jadd_zero_right]

/-- C1 (amended with `fromClientID ≠ toClientID`): a successful transfer
of quantity `qv` removes exactly `qv` from the source client's fulfilled
sum, adds exactly `qv` to the destination client's fulfilled sum through
exactly one newly created order (quantity `qv`, bid price 0, fulfilled),
and leaves the total fulfilled sum over all clients unchanged. -/
theorem C1_transfer_conservation (now : ℕ) (newId fromClientID toClientID qs : String)
    (s : State) (fc tc : Client) (qv t : ℚ)
    (hne : fromClientID ≠ toClientID)
    (hfc : s.clientStorage.find? (fun c => c.id == fromClientID) = some fc)
    (hfcid : (fc.id == "") = false)
    (htc : s.clientStorage.find? (fun c => c.id == toClientID) = some tc)
    (htcid : (tc.id == "") = false)
    (hq : parseFloat qs = some qv) (hq0 : 0 < qv)
    (ht : jsum ((s.creditOrderStorage.filter
        (fun o => o.client_id == fromClientID && o.is_fulfilled)).map
        (fun o => o.quantity)) = some t)
    (hts : qv ≤ t)
    (hnd : (orderIds s.creditOrderStorage).Nodup)
    (hfresh : newId ∉ orderIds s.creditOrderStorage) :
    (transferCredits now newId fromClientID toClientID qs s).1
        = "Successfully transferred " ++ qs ++ " renewable energy credits from "
            ++ fc.name ++ " to " ++ tc.name
    ∧ sumClientFulfilled fromClientID
        (transferCredits now newId fromClientID toClientID qs s).2.creditOrderStorage
        = some (t - qv)
    ∧ sumClientFulfilled toClientID
        (transferCredits now newId fromClientID toClientID qs s).2.creditOrderStorage
        = jadd (sumClientFulfilled toClientID s.creditOrderStorage) (some qv)
    ∧ sumAllFulfilled (transferCredits now newId fromClientID toClientID qs s).2.creditOrderStorage
        = sumAllFulfilled s.creditOrderStorage
    ∧ orderIds (transferCredits now newId fromClientID toClientID qs s).2.creditOrderStorage
        = orderIds s.creditOrderStorage ++ [newId]
    ∧ getOrder (transferCredits now newId fromClientID toClientID qs s).2.creditOrderStorage newId
        = some ⟨newId, toClientID, some qv, some 0, true, now, some now⟩ := by
  have hval1 : (fc.id == "" || tc.id == "") = false := by rw [hfcid, htcid]; rfl
  have hval2 : (jIsNaN (some qv) || jle (some qv) (some (0 : ℚ))) = false := by
    have h2 : jle (some qv) (some (0 : ℚ)) = false := decide_eq_false (not_le.mpr hq0)
    rw [h2]
    rfl
  have hval3 : jlt (jsum ((s.creditOrderStorage.filter
      (fun o => o.client_id == fromClientID && o.is_fulfilled)).map
      (fun o => o.quantity))) (some qv) = false := by
    rw [ht]
    exact decide_eq_false (not_lt.mpr hts)
  have hres1 : (transferCredits now newId fromClientID toClientID qs s).1
      = "Successfully transferred " ++ qs ++ " renewable energy credits from "
          ++ fc.name ++ " to " ++ tc.name := by
    simp only [transferCredits, hfc, htc, hval1, hval2, hval3, hq, Bool.false_eq_true, if_false]
  have hres2 : (transferCredits now newId fromClientID toClientID qs s).2.creditOrderStorage
      = insertOrder (transferLoop now (some qv)
          (s.creditOrderStorage.filter
            (fun o => o.client_id == fromClientID && o.is_fulfilled))
          s.creditOrderStorage)
        ⟨newId, toClientID, some qv, some 0, true, now, some now⟩ := by
    simp only [transferCredits, hfc, htc, hval1, hval2, hval3, hq, Bool.false_eq_true, if_false]
  have hLsub : ∀ o ∈ s.creditOrderStorage.filter
      (fun o => o.client_id == fromClientID && o.is_fulfilled), o ∈ s.creditOrderStorage :=
    fun o ho => (List.mem_filter.mp ho).1
  have hLnd : (orderIds (s.creditOrderStorage.filter
      (fun o => o.client_id == fromClientID && o.is_fulfilled))).Nodup :=
    List.Nodup.sublist (List.Sublist.map _ (List.filter_sublist _)) hnd
  have hLP : ∀ o ∈ s.creditOrderStorage.filter
      (fun o => o.client_id == fromClientID && o.is_fulfilled),
      (o.client_id == fromClientID && o.is_fulfilled) = true :=
    fun o ho => (List.mem_filter.mp ho).2
  have hLclient : ∀ o ∈ s.creditOrderStorage.filter
      (fun o => o.client_id == fromClientID && o.is_fulfilled), o.client_id = fromClientID := by
    intro o ho
    have h2 := hLP o ho
    rw [Bool.and_eq_true] at h2
    exact beq_iff_eq.mp h2.1
  have hLful : ∀ o ∈ s.creditOrderStorage.filter
      (fun o => o.client_id == fromClientID && o.is_fulfilled), o.is_fulfilled = true := by
    intro o ho
    have h2 := hLP o ho
    rw [Bool.and_eq_true] at h2
    exact h2.2
  have htsum : sumP (fun o => o.client_id == fromClientID && o.is_fulfilled)
      s.creditOrderStorage = some t := by rw [← jsum_filter_map]; exact ht
  have hids1 : orderIds (transferLoop now (some qv)
      (s.creditOrderStorage.filter (fun o => o.client_id == fromClientID && o.is_fulfilled))
      s.creditOrderStorage) = orderIds s.creditOrderStorage :=
    transferLoop_orderIds now fun o ho => mem_orderIds_of_mem (hLsub o ho)
  have hfresh1 : (⟨newId, toClientID, some qv, some 0, true, now, some now⟩ : CreditOrder).id
      ∉ orderIds (transferLoop now (some qv)
        (s.creditOrderStorage.filter (fun o => o.client_id == fromClientID && o.is_fulfilled))
        s.creditOrderStorage) := by rw [hids1]; exact hfresh
  have hins : insertOrder (transferLoop now (some qv)
      (s.creditOrderStorage.filter (fun o => o.client_id == fromClientID && o.is_fulfilled))
      s.creditOrderStorage) ⟨newId, toClientID, some qv, some 0, true, now, some now⟩
      = transferLoop now (some qv)
          (s.creditOrderStorage.filter (fun o => o.client_id == fromClientID && o.is_fulfilled))
          s.creditOrderStorage ++ [⟨newId, toClientID, some qv, some 0, true, now, some now⟩] :=
    insertOrder_fresh _ _ hfresh1
  have hdedfrom := transferLoop_sumP_deduct now
    (fun o => o.client_id == fromClientID && o.is_fulfilled)
    hnd hLsub hLnd hLP
    (fun o ho => by
      show (o.client_id == fromClientID && false) = false
      exact Bool.and_false _)
    (fun o ho q2 => by
      show (o.client_id == fromClientID && o.is_fulfilled) = true
      exact hLP o ho)
    ht (le_of_lt hq0) hts
  have hdedall := transferLoop_sumP_deduct now (fun o => o.is_fulfilled)
    hnd hLsub hLnd hLful
    (fun o ho => rfl)
    (fun o ho q2 => by
      show o.is_fulfilled = true
      exact hLful o ho)
    ht (le_of_lt hq0) hts
  have hto : ∀ o ∈ s.creditOrderStorage.filter
      (fun o => o.client_id == fromClientID && o.is_fulfilled),
      (o.client_id == toClientID) = false := by
    intro o ho
    rw [beq_eq_false_iff_ne, hLclient o ho]
    exact hne
  have hframeto := @transferLoop_sumP_frame now
    (fun o => o.client_id == toClientID && o.is_fulfilled)
    (s.creditOrderStorage.filter (fun o => o.client_id == fromClientID && o.is_fulfilled))
    s.creditOrderStorage (some qv)
    hnd hLsub hLnd
    (fun o ho => by
      show (o.client_id == toClientID && o.is_fulfilled) = false
      rw [hto o ho]
      exact Bool.false_and _)
    (fun o ho => by
      show (o.client_id == toClientID && false) = false
      exact Bool.and_false _)
    (fun o ho q2 => by
      show (o.client_id == toClientID && o.is_fulfilled) = false
      rw [hto o ho]
      exact Bool.false_and _)
  refine ⟨hres1, ?_, ?_, ?_, ?_, ?_⟩
  · rw [hres2]
    show sumP (fun o => o.client_id == fromClientID && o.is_fulfilled) _ = some (t - qv)
    rw [hins, sumP_append_one_neg _ _ _ (by
      show (toClientID == fromClientID && true) = false
      rw [show (toClientID == fromClientID) = false from
        beq_eq_false_iff_ne.mpr fun h => hne h.symm]
      rfl)]
    rw [htsum] at hdedfrom
    exact jadd_some_right_eq hdedfrom
  · rw [hres2]
    show sumP (fun o => o.client_id == toClientID && o.is_fulfilled) _
        = jadd (sumClientFulfilled toClientID s.creditOrderStorage) (some qv)
    rw [hins, sumP_append_one_pos _ _ _ (by
      show (toClientID == toClientID && true) = true
      rw [beq_self_eq_true]
      rfl)]
    rw [hframeto]
    rfl
  · rw [hres2]
    show sumP (fun o => o.is_fulfilled) _ = sumAllFulfilled s.creditOrderStorage
    rw [hins, sumP_append_one_pos _ _ _ rfl]
    exact hdedall
  · rw [hres2]
    show orderIds (insertOrder _ _) = _
    rw [hins, orderIds, List.map_append, ← orderIds, ← orderIds, hids1]
    rfl
  · rw [hres2]
    show getOrder (insertOrder _ _) newId = _
    exact getOrder_insertOrder_self _ _

/-- Concrete state for the C1 counterexample: one client holding one
fulfilled order of quantity 30. -/
def stateC1 : State :=
  ⟨[], [⟨"A", "alice", 0, none⟩], [], [⟨"o1", "A", some 30, some 1, true, 0, none⟩], []⟩

/-- Counterexample for C1 as literally stated: a self-transfer
(`fromClientID = toClientID`) passes all three validations and returns the
success message, yet the client's fulfilled sum does not decrease at all
(it stays 30, not 30 − 10). -/
theorem C1_counterexample :
    (transferCredits 5 "n1" "A" "A" "10" stateC1).1
        = "Successfully transferred 10 renewable energy credits from alice to alice"
    ∧ sumClientFulfilled "A" stateC1.creditOrderStorage = some 30
    ∧ sumClientFulfilled "A" (transferCredits 5 "n1" "A" "A" "10" stateC1).2.creditOrderStorage
        = some 30
    ∧ ¬ ((30 : ℚ) - 10 = 30) := by
  have hp : parseFloat "10" = some 10 := by decide
  refine ⟨?_, ?_, ?_, by norm_num⟩
  · norm_num [transferCredits, transferLoop, insertOrder, jsum, jadd, jle, jlt, jsub,
      jIsNaN, hp, stateC1, List.find?, List.filter] <;> decide
  · norm_num [sumClientFulfilled, sumP, jadd, stateC1] <;> decide
  · norm_num [transferCredits, transferLoop, insertOrder, jsum, jadd, jle, jlt, jsub,
      jIsNaN, hp, stateC1, List.find?, List.filter, sumClientFulfilled, sumP] <;> decide

/-- Concrete state for the C1 witness. -/
def stateC1w : State :=
  ⟨[], [⟨"A", "alice", 0, none⟩, ⟨"B", "bob", 0, none⟩], [],
    [⟨"o1", "A", some 30, some 1, true, 0, none⟩], []⟩

/-- Witness for the amended C1 at a concrete input. -/
theorem C1_transfer_conservation_witness :
    ("A" : String) ≠ "B"
    ∧ stateC1w.clientStorage.find? (fun c => c.id == "A") = some ⟨"A", "alice", 0, none⟩
    ∧ stateC1w.clientStorage.find? (fun c => c.id == "B") = some ⟨"B", "bob", 0, none⟩
    ∧ parseFloat "10" = some 10
    ∧ (0 : ℚ) < 10
    ∧ jsum ((stateC1w.creditOrderStorage.filter
        (fun o => o.client_id == "A" && o.is_fulfilled)).map (fun o => o.quantity)) = some 30
    ∧ (10 : ℚ) ≤ 30
    ∧ (orderIds stateC1w.creditOrderStorage).Nodup
    ∧ "n1" ∉ orderIds stateC1w.creditOrderStorage
    ∧ sumClientFulfilled "A" (transferCredits 5 "n1" "A" "B" "10" stateC1w).2.creditOrderStorage
        = some (30 - 10)
    ∧ sumAllFulfilled (transferCredits 5 "n1" "A" "B" "10" stateC1w).2.creditOrderStorage
        = sumAllFulfilled stateC1w.creditOrderStorage :=
  ⟨by decide, by decide, by decide, by decide, by decide,
    by simp [stateC1w, jsum, jadd], by decide, by decide, by decide,
    (C1_transfer_conservation 5 "n1" "A" "B" "10" stateC1w ⟨"A", "alice", 0, none⟩
      ⟨"B", "bob", 0, none⟩ 10 30 (by decide) (by decide) (by decide) (by decide) (by decide)
      (by decide) (by decide) (by simp [stateC1w, jsum, jadd]) (by decide) (by decide)
      (by decide)).2.1,
    (C1_transfer_conservation 5 "n1" "A" "B" "10" stateC1w ⟨"A", "alice", 0, none⟩
      ⟨"B", "bob", 0, none⟩ 10 30 (by decide) (by decide) (by decide) (by decide) (by decide)
      (by decide) (by decide) (by simp [stateC1w, jsum, jadd]) (by decide) (by decide)
      (by decide)).2.2.2.1⟩

/-- Concrete state for claim C2: client A with two fulfilled orders of
quantity 20 each. -/
def stateC2 : State :=
  ⟨[], [⟨"A", "alice", 0, none⟩, ⟨"B", "bob", 0, none⟩], [],
    [⟨"o1", "A", some 20, some 1, true, 0, none⟩,
     ⟨"o2", "A", some 20, some 1, true, 0, none⟩], []⟩

/-- Counterexample for C2 as stated: after `transferCredits(A, B, "25")`
the second order's quantity is "15" (20 minus the remaining 5), not "5". -/
theorem C2_counterexample :
    getOrder (transferCredits 5 "n1" "A" "B" "25" stateC2).2.creditOrderStorage "o2"
        = some ⟨"o2", "A", some 15, some 1, true, 0, some 5⟩
    ∧ ¬ getOrder (transferCredits 5 "n1" "A" "B" "25" stateC2).2.creditOrderStorage "o2"
        = some ⟨"o2", "A", some 5, some 1, true, 0, some 5⟩ := by
  have hp : parseFloat "25" = some 25 := by decide
  norm_num [transferCredits, transferLoop, insertOrder, jsum, jadd, jle, jlt, jsub,
    jIsNaN, hp, getOrder, stateC2, List.find?, List.filter]
  decide

/-- C2 amended: if client A's fulfilled orders are exactly two orders of
quantity 20 each (in storage order), a transfer of "25" to another client
fully consumes the first (flag cleared, quantity kept), reduces the second
to quantity 15 (still fulfilled), and creates exactly one new fulfilled
order of quantity 25 for the destination. -/
theorem C2_transfer_split (now : ℕ) (newId fromClientID toClientID : String)
    (s : State) (fc tc : Client) (o1 o2 : CreditOrder)
    (hfc : s.clientStorage.find? (fun c => c.id == fromClientID) = some fc)
    (hfcid : (fc.id == "") = false)
    (htc : s.clientStorage.find? (fun c => c.id == toClientID) = some tc)
    (htcid : (tc.id == "") = false)
    (hfil : s.creditOrderStorage.filter
        (fun o => o.client_id == fromClientID && o.is_fulfilled) = [o1, o2])
    (h1 : o1.quantity = some 20) (h2 : o2.quantity = some 20)
    (hnd : (orderIds s.creditOrderStorage).Nodup)
    (hfresh : newId ∉ orderIds s.creditOrderStorage) :
    getOrder (transferCredits now newId fromClientID toClientID "25" s).2.creditOrderStorage o1.id
        = some { o1 with is_fulfilled := false, updated_at := some now }
    ∧ getOrder (transferCredits now newId fromClientID toClientID "25" s).2.creditOrderStorage o2.id
        = some { o2 with quantity := some 15, updated_at := some now }
    ∧ getOrder (transferCredits now newId fromClientID toClientID "25" s).2.creditOrderStorage newId
        = some ⟨newId, toClientID, some 25, some 0, true, now, some now⟩
    ∧ orderIds (transferCredits now newId fromClientID toClientID "25" s).2.creditOrderStorage
        = orderIds s.creditOrderStorage ++ [newId] := by
  have hq : parseFloat "25" = some 25 := by decide
  have ht : jsum ((s.creditOrderStorage.filter
      (fun o => o.client_id == fromClientID && o.is_fulfilled)).map
      (fun o => o.quantity)) = some 40 := by
    rw [hfil, List.map_cons, List.map_cons, List.map_nil, h1, h2, jsum_cons, jsum_cons,
      jsum_nil, jadd_some_some, jadd_some_some]
    norm_num
  have hval1 : (fc.id == "" || tc.id == "") = false := by rw [hfcid, htcid]; rfl
  have hval2 : (jIsNaN (some (25 : ℚ)) || jle (some (25 : ℚ)) (some (0 : ℚ))) = false := by decide
  have hval3 : jlt (jsum ((s.creditOrderStorage.filter
      (fun o => o.client_id == fromClientID && o.is_fulfilled)).map
      (fun o => o.quantity))) (some (25 : ℚ)) = false := by
    rw [ht]
    decide
  have hres2 : (transferCredits now newId fromClientID toClientID "25" s).2.creditOrderStorage
      = insertOrder (transferLoop now (some 25)
          (s.creditOrderStorage.filter
            (fun o => o.client_id == fromClientID && o.is_fulfilled))
          s.creditOrderStorage)
        ⟨newId, toClientID, some 25, some 0, true, now, some now⟩ := by
    simp only [transferCredits, hfc, htc, hval1, hval2, hval3, hq, Bool.false_eq_true, if_false]
  have hg1 : jle o1.quantity (some (25 : ℚ)) = true := by rw [h1]; decide
  have hs1 : jsub (some (25 : ℚ)) o1.quantity = some 5 := by
    rw [h1]
    show some ((25 : ℚ) - 20) = some 5
    norm_num
  have hg2 : jle o2.quantity (some (5 : ℚ)) = false := by rw [h2]; decide
  have hq2 : jsub o2.quantity (some (5 : ℚ)) = some 15 := by
    rw [h2]
    show some ((20 : ℚ) - 5) = some 15
    norm_num
  have hloop : transferLoop now (some 25)
      (s.creditOrderStorage.filter (fun o => o.client_id == fromClientID && o.is_fulfilled))
      s.creditOrderStorage
      = insertOrder (insertOrder s.creditOrderStorage
          { o1 with is_fulfilled := false, updated_at := some now })
        { o2 with quantity := some 15, updated_at := some now } := by
    rw [hfil]
    simp only [transferLoop, hg1, if_true, hs1, hg2, Bool.false_eq_true, if_false, hq2]
  have ho1st : o1 ∈ s.creditOrderStorage := by
    have : o1 ∈ s.creditOrderStorage.filter
        (fun o => o.client_id == fromClientID && o.is_fulfilled) := by
      rw [hfil]
      exact List.mem_cons_self _ _
    exact (List.mem_filter.mp this).1
  have ho2st : o2 ∈ s.creditOrderStorage := by
    have : o2 ∈ s.creditOrderStorage.filter
        (fun o => o.client_id == fromClientID && o.is_fulfilled) := by
      rw [hfil]
      exact List.mem_cons_of_mem _ (List.mem_cons_self _ _)
    exact (List.mem_filter.mp this).1
  have hne12 : o2.id ≠ o1.id := by
    have hLnd : (orderIds (s.creditOrderStorage.filter
        (fun o => o.client_id == fromClientID && o.is_fulfilled))).Nodup :=
      List.Nodup.sublist (List.Sublist.map _ (List.filter_sublist _)) hnd
    rw [hfil, orderIds_cons, orderIds_cons, List.nodup_cons] at hLnd
    intro hcontra
    exact hLnd.1 (hcontra ▸ List.mem_cons_self _ _)
  have hne1new : o1.id ≠ newId := by
    intro hcontra
    exact hfresh (hcontra ▸ mem_orderIds_of_mem ho1st)
  have hne2new : o2.id ≠ newId := by
    intro hcontra
    exact hfresh (hcontra ▸ mem_orderIds_of_mem ho2st)
  refine ⟨?_, ?_, ?_, ?_⟩
  · rw [hres2, hloop]
    have ha : getOrder (insertOrder (insertOrder (insertOrder s.creditOrderStorage
        { o1 with is_fulfilled := false, updated_at := some now })
        { o2 with quantity := some 15, updated_at := some now })
        ⟨newId, toClientID, some 25, some 0, true, now, some now⟩) o1.id
        = getOrder (insertOrder (insertOrder s.creditOrderStorage
            { o1 with is_fulfilled := false, updated_at := some now })
            { o2 with quantity := some 15, updated_at := some now }) o1.id :=
      getOrder_insertOrder_ne _ _ _ hne1new
    have hb : getOrder (insertOrder (insertOrder s.creditOrderStorage
        { o1 with is_fulfilled := false, updated_at := some now })
        { o2 with quantity := some 15, updated_at := some now }) o1.id
        = getOrder (insertOrder s.creditOrderStorage
            { o1 with is_fulfilled := false, updated_at := some now }) o1.id :=
      getOrder_insertOrder_ne _ _ _ (Ne.symm hne12)
    have hc : getOrder (insertOrder s.creditOrderStorage
        { o1 with is_fulfilled := false, updated_at := some now }) o1.id
        = some { o1 with is_fulfilled := false, updated_at := some now } :=
      getOrder_insertOrder_self _ _
    rw [ha, hb, hc]
  · rw [hres2, hloop]
    have ha : getOrder (insertOrder (insertOrder (insertOrder s.creditOrderStorage
        { o1 with is_fulfilled := false, updated_at := some now })
        { o2 with quantity := some 15, updated_at := some now })
        ⟨newId, toClientID, some 25, some 0, true, now, some now⟩) o2.id
        = getOrder (insertOrder (insertOrder s.creditOrderStorage
            { o1 with is_fulfilled := false, updated_at := some now })
            { o2 with quantity := some 15, updated_at := some now }) o2.id :=
      getOrder_insertOrder_ne _ _ _ hne2new
    have hb : getOrder (insertOrder (insertOrder s.creditOrderStorage
        { o1 with is_fulfilled := false, updated_at := some now })
        { o2 with quantity := some 15, updated_at := some now }) o2.id
        = some { o2 with quantity := some 15, updated_at := some now } :=
      getOrder_insertOrder_self _ _
    rw [ha, hb]
  · rw [hres2, hloop]
    exact getOrder_insertOrder_self _ _
  · rw [hres2, hloop]
    have hid1 : orderIds (insertOrder s.creditOrderStorage
        { o1 with is_fulfilled := false, updated_at := some now }) = orderIds s.creditOrderStorage :=
      orderIds_insertOrder_mem _ _ (@mem_orderIds_of_mem o1 s.creditOrderStorage ho1st)
    have hid2 : orderIds (insertOrder (insertOrder s.creditOrderStorage
        { o1 with is_fulfilled := false, updated_at := some now })
        { o2 with quantity := some 15, updated_at := some now })
        = orderIds (insertOrder s.creditOrderStorage
            { o1 with is_fulfilled := false, updated_at := some now }) :=
      orderIds_insertOrder_mem _ _ (by
        rw [hid1]
        exact @mem_orderIds_of_mem o2 s.creditOrderStorage ho2st)
    have hfr : (⟨newId, toClientID, some 25, some 0, true, now, some now⟩ : CreditOrder).id
        ∉ orderIds (insertOrder (insertOrder s.creditOrderStorage
            { o1 with is_fulfilled := false, updated_at := some now })
            { o2 with quantity := some 15, updated_at := some now }) := by
      rw [hid2, hid1]
      exact hfresh
    rw [insertOrder_fresh _ _ hfr, orderIds, List.map_append, ← orderIds, ← orderIds, hid2, hid1]
    rfl

/-- Witness for the amended C2 at the concrete two-order state. -/
theorem C2_transfer_split_witness :
    stateC2.creditOrderStorage.filter (fun o => o.client_id == "A" && o.is_fulfilled)
        = [⟨"o1", "A", some 20, some 1, true, 0, none⟩,
           ⟨"o2", "A", some 20, some 1, true, 0, none⟩]
    ∧ (orderIds stateC2.creditOrderStorage).Nodup
    ∧ "n1" ∉ orderIds stateC2.creditOrderStorage
    ∧ getOrder (transferCredits 5 "n1" "A" "B" "25" stateC2).2.creditOrderStorage "o1"
        = some ⟨"o1", "A", some 20, some 1, false, 0, some 5⟩
    ∧ getOrder (transferCredits 5 "n1" "A" "B" "25" stateC2).2.creditOrderStorage "n1"
        = some ⟨"n1", "B", some 25, some 0, true, 5, some 5⟩ :=
  ⟨by decide, by decide, by decide,
    (C2_transfer_split 5 "n1" "A" "B" stateC2 ⟨"A", "alice", 0, none⟩ ⟨"B", "bob", 0, none⟩
      ⟨"o1", "A", some 20, some 1, true, 0, none⟩ ⟨"o2", "A", some 20, some 1, true, 0, none⟩
      (by decide) (by decide) (by decide) (by decide) (by decide) rfl rfl (by decide)
      (by decide)).1,
    (C2_transfer_split 5 "n1" "A" "B" stateC2 ⟨"A", "alice", 0, none⟩ ⟨"B", "bob", 0, none⟩
      ⟨"o1", "A", some 20, some 1, true, 0, none⟩ ⟨"o2", "A", some 20, some 1, true, 0, none⟩
      (by decide) (by decide) (by decide) (by decide) (by decide) rfl rfl (by decide)
      (by decide)).2.2.1⟩

/-- C9: with exactly one producer of supply 100 and exactly the two
unfulfilled orders of quantity 40 and 70 (in storage order), one
allocation pass fulfills the first order and leaves the second untouched
(70 exceeds the remaining 60). -/
theorem C9_scenario_greedy_allocation (now : ℕ) (s : State) (p : Producer)
    (o1 o2 : CreditOrder)
    (hps : s.producerStorage = [p])
    (hsup : p.renewable_energy_supply = some 100)
    (hfil : s.creditOrderStorage.filter (fun o => !o.is_fulfilled) = [o1, o2])
    (h1 : o1.quantity = some 40) (h2 : o2.quantity = some 70)
    (hnd : (orderIds s.creditOrderStorage).Nodup) :
    getOrder (updateCreditOrderFulfillment now s).2.creditOrderStorage o1.id
        = some { o1 with is_fulfilled := true, updated_at := some now }
    ∧ getOrder (updateCreditOrderFulfillment now s).2.creditOrderStorage o2.id = some o2
    ∧ o2.is_fulfilled = false := by
  have ho1fil : o1 ∈ s.creditOrderStorage.filter (fun o => !o.is_fulfilled) := by
    rw [hfil]
    exact List.mem_cons_self _ _
  have ho2fil : o2 ∈ s.creditOrderStorage.filter (fun o => !o.is_fulfilled) := by
    rw [hfil]
    exact List.mem_cons_of_mem _ (List.mem_cons_self _ _)
  have ho1st : o1 ∈ s.creditOrderStorage := (List.mem_filter.mp ho1fil).1
  have ho2st : o2 ∈ s.creditOrderStorage := (List.mem_filter.mp ho2fil).1
  have ho2f : o2.is_fulfilled = false := by
    have h3 := (List.mem_filter.mp ho2fil).2
    simpa using h3
  have hne12 : o2.id ≠ o1.id := by
    have hLnd : (orderIds (s.creditOrderStorage.filter (fun o => !o.is_fulfilled))).Nodup :=
      List.Nodup.sublist (List.Sublist.map _ (List.filter_sublist _)) hnd
    rw [hfil, orderIds_cons, orderIds_cons, List.nodup_cons] at hLnd
    intro hcontra
    exact hLnd.1 (hcontra ▸ List.mem_cons_self _ _)
  have hg1 : jge (some (100 : ℚ)) o1.quantity = true := by rw [h1]; decide
  have hs1 : jsub (some (100 : ℚ)) o1.quantity = some 60 := by
    rw [h1]
    show some ((100 : ℚ) - 40) = some 60
    norm_num
  have hg2 : jge (some (60 : ℚ)) o2.quantity = false := by rw [h2]; decide
  have hstore : (updateCreditOrderFulfillment now s).2.creditOrderStorage
      = insertOrder s.creditOrderStorage
          { o1 with is_fulfilled := true, updated_at := some now } := by
    simp only [updateCreditOrderFulfillment, hps, hfil, List.isEmpty, Bool.or_self,
      Bool.false_eq_true, if_false, allocAll, hsup, fulfillOrders, hg1, if_true, hs1, hg2]
  refine ⟨?_, ?_, ho2f⟩
  · rw [hstore]
    exact getOrder_insertOrder_self _ _
  · rw [hstore]
    have ha : getOrder (insertOrder s.creditOrderStorage
        { o1 with is_fulfilled := true, updated_at := some now }) o2.id
        = getOrder s.creditOrderStorage o2.id :=
      getOrder_insertOrder_ne _ _ _ hne12
    rw [ha]
    exact getOrder_eq_some_of_mem hnd ho2st

/-- Concrete state for the C9 witness: supply 100, unfulfilled orders of
40 and 70 in that order. -/
def stateC9 : State :=
  ⟨[⟨"p1", "prod", some 100, 0, none⟩], [⟨"A", "alice", 0, none⟩], [],
    [⟨"u1", "A", some 40, some 1, false, 0, none⟩,
     ⟨"u2", "A", some 70, some 1, false, 0, none⟩], []⟩

/-- Witness for C9 at the concrete scenario state. -/
theorem C9_scenario_greedy_allocation_witness :
    stateC9.producerStorage = [⟨"p1", "prod", some 100, 0, none⟩]
    ∧ stateC9.creditOrderStorage.filter (fun o => !o.is_fulfilled)
        = [⟨"u1", "A", some 40, some 1, false, 0, none⟩,
           ⟨"u2", "A", some 70, some 1, false, 0, none⟩]
    ∧ (orderIds stateC9.creditOrderStorage).Nodup
    ∧ getOrder (updateCreditOrderFulfillment 6 stateC9).2.creditOrderStorage "u1"
        = some ⟨"u1", "A", some 40, some 1, true, 0, some 6⟩
    ∧ getOrder (updateCreditOrderFulfillment 6 stateC9).2.creditOrderStorage "u2"
        = some ⟨"u2", "A", some 70, some 1, false, 0, none⟩ :=
  ⟨rfl, by decide, by decide,
    (C9_scenario_greedy_allocation 6 stateC9 ⟨"p1", "prod", some 100, 0, none⟩
      ⟨"u1", "A", some 40, some 1, false, 0, none⟩ ⟨"u2", "A", some 70, some 1, false, 0, none⟩
      rfl rfl (by decide) rfl rfl (by decide)).1,
    (C9_scenario_greedy_allocation 6 stateC9 ⟨"p1", "prod", some 100, 0, none⟩
      ⟨"u1", "A", some 40, some 1, false, 0, none⟩ ⟨"u2", "A", some 70, some 1, false, 0, none⟩
      rfl rfl (by decide) rfl rfl (by decide)).2.1⟩

/-- C10: in a successful transfer, a source order that is fully consumed
(its result record has `is_fulfilled = false`) keeps its quantity and all
identifying fields — only `is_fulfilled` and `updated_at` change — and it
therefore re-enters the unfulfilled pool used by a later allocation pass. -/
theorem C10_full_consumption_keeps_quantity (now : ℕ)
    (newId fromClientID toClientID qs : String) (s : State) (fc tc : Client) (qv t : ℚ)
    (hfc : s.clientStorage.find? (fun c => c.id == fromClientID) = some fc)
    (hfcid : (fc.id == "") = false)
    (htc : s.clientStorage.find? (fun c => c.id == toClientID) = some tc)
    (htcid : (tc.id == "") = false)
    (hq : parseFloat qs = some qv) (hq0 : 0 < qv)
    (ht : jsum ((s.creditOrderStorage.filter
        (fun o => o.client_id == fromClientID && o.is_fulfilled)).map
        (fun o => o.quantity)) = some t)
    (hts : qv ≤ t)
    (hnd : (orderIds s.creditOrderStorage).Nodup)
    (hfresh : newId ∉ orderIds s.creditOrderStorage)
    (o : CreditOrder) (ho : o ∈ s.creditOrderStorage)
    (hocl : o.client_id = fromClientID) (hof : o.is_fulfilled = true) :
    ∃ o', getOrder (transferCredits now newId fromClientID toClientID qs s).2.creditOrderStorage
        o.id = some o'
      ∧ (o'.is_fulfilled = false →
          o'.quantity = o.quantity ∧ o'.client_id = o.client_id ∧ o'.bid_price = o.bid_price
          ∧ o'.created_date = o.created_date ∧ o'.updated_at = some now
          ∧ o' ∈ (transferCredits now newId fromClientID toClientID qs
              s).2.creditOrderStorage.filter (fun x => !x.is_fulfilled)) := by
  have hval1 : (fc.id == "" || tc.id == "") = false := by rw [hfcid, htcid]; rfl
  have hval2 : (jIsNaN (some qv) || jle (some qv) (some (0 : ℚ))) = false := by
    have h2 : jle (some qv) (some (0 : ℚ)) = false := decide_eq_false (not_le.mpr hq0)
    rw [h2]
    rfl
  have hval3 : jlt (jsum ((s.creditOrderStorage.filter
      (fun o => o.client_id == fromClientID && o.is_fulfilled)).map
      (fun o => o.quantity))) (some qv) = false := by
    rw [ht]
    exact decide_eq_false (not_lt.mpr hts)
  have hres2 : (transferCredits now newId fromClientID toClientID qs s).2.creditOrderStorage
      = insertOrder (transferLoop now (some qv)
          (s.creditOrderStorage.filter
            (fun o => o.client_id == fromClientID && o.is_fulfilled))
          s.creditOrderStorage)
        ⟨newId, toClientID, some qv, some 0, true, now, some now⟩ := by
    simp only [transferCredits, hfc, htc, hval1, hval2, hval3, hq, Bool.false_eq_true, if_false]
  have hLsub : ∀ x ∈ s.creditOrderStorage.filter
      (fun o => o.client_id == fromClientID && o.is_fulfilled), x ∈ s.creditOrderStorage :=
    fun x hx => (List.mem_filter.mp hx).1
  have hLnd : (orderIds (s.creditOrderStorage.filter
      (fun o => o.client_id == fromClientID && o.is_fulfilled))).Nodup :=
    List.Nodup.sublist (List.Sublist.map _ (List.filter_sublist _)) hnd
  have hoL : o ∈ s.creditOrderStorage.filter
      (fun o => o.client_id == fromClientID && o.is_fulfilled) := by
    refine List.mem_filter.mpr ⟨ho, ?_⟩
    rw [hocl, hof]
    simp
  have honew : o.id ≠ newId := by
    intro hcontra
    exact hfresh (hcontra ▸ mem_orderIds_of_mem ho)
  have hgo : getOrder (transferCredits now newId fromClientID toClientID qs
      s).2.creditOrderStorage o.id
      = getOrder (transferLoop now (some qv)
          (s.creditOrderStorage.filter
            (fun o => o.client_id == fromClientID && o.is_fulfilled))
          s.creditOrderStorage) o.id := by
    rw [hres2]
    exact getOrder_insertOrder_ne _ _ _ honew
  rcases @transferLoop_getOrder_entry now
      (s.creditOrderStorage.filter (fun o => o.client_id == fromClientID && o.is_fulfilled))
      s.creditOrderStorage (some qv) hnd hLsub hLnd o hoL
    with htri | htri | ⟨q2, htri⟩
  · refine ⟨o, by rw [hgo]; exact htri, ?_⟩
    intro hff
    rw [hof] at hff
    cases hff
  · refine ⟨{ o with is_fulfilled := false, updated_at := some now }, by rw [hgo]; exact htri, ?_⟩
    intro _
    refine ⟨rfl, rfl, rfl, rfl, rfl, ?_⟩
    refine List.mem_filter.mpr ⟨?_, by rfl⟩
    have hm : getOrder (transferCredits now newId fromClientID toClientID qs
        s).2.creditOrderStorage o.id
        = some { o with is_fulfilled := false, updated_at := some now } := by
      rw [hgo]
      exact htri
    exact List.mem_of_find?_eq_some hm
  · refine ⟨{ o with quantity := q2, updated_at := some now }, by rw [hgo]; exact htri, ?_⟩
    intro hff
    have hff2 : o.is_fulfilled = false := hff
    rw [hof] at hff2
    cases hff2

/-- Concrete state for the C10 witness: one fulfilled order of quantity 10
that a transfer of "10" fully consumes. -/
def stateC10 : State :=
  ⟨[], [⟨"A", "alice", 0, none⟩, ⟨"B", "bob", 0, none⟩], [],
    [⟨"o1", "A", some 10, some 1, true, 0, none⟩], []⟩

/-- Witness for C10 at the concrete full-consumption state. -/
theorem C10_full_consumption_keeps_quantity_witness :
    parseFloat "10" = some 10
    ∧ (0 : ℚ) < 10
    ∧ jsum ((stateC10.creditOrderStorage.filter
        (fun o => o.client_id == "A" && o.is_fulfilled)).map (fun o => o.quantity)) = some 10
    ∧ (10 : ℚ) ≤ 10
    ∧ (orderIds stateC10.creditOrderStorage).Nodup
    ∧ "n1" ∉ orderIds stateC10.creditOrderStorage
    ∧ (⟨"o1", "A", some 10, some 1, true, 0, none⟩ : CreditOrder) ∈ stateC10.creditOrderStorage
    ∧ ∃ o', getOrder (transferCredits 5 "n1" "A" "B" "10" stateC10).2.creditOrderStorage "o1"
          = some o'
        ∧ (o'.is_fulfilled = false →
            o'.quantity = some 10 ∧ o'.client_id = "A" ∧ o'.bid_price = some 1
            ∧ o'.created_date = 0 ∧ o'.updated_at = some 5
            ∧ o' ∈ (transferCredits 5 "n1" "A" "B" "10"
                stateC10).2.creditOrderStorage.filter (fun x => !x.is_fulfilled)) :=
  ⟨by decide, by decide, by simp [stateC10, jsum, jadd], by decide, by decide, by decide,
    by decide,
    C10_full_consumption_keeps_quantity 5 "n1" "A" "B" "10" stateC10 ⟨"A", "alice", 0, none⟩
      ⟨"B", "bob", 0, none⟩ 10 10 (by decide) (by decide) (by decide) (by decide) (by decide)
      (by decide) (by simp [stateC10, jsum, jadd]) (by decide) (by decide) (by decide)
      ⟨"o1", "A", some 10, some 1, true, 0, none⟩ (by decide) rfl rfl⟩
